import Mathlib

/-!
# node-manager-core: keystore manager, sync freshness check and address file

A shallow embedding of

* `node/validator/keystore/lodestar.go` (`LodestarKeystoreManager`),
* `node/services/utils.go` (`IsSyncWithinThreshold`),
* `node/wallet/address-manager.go` (`addressManager`),

together with the parts of the Go standard library and of the third-party
libraries they call.  Go `string` and `[]byte` values that hold text are Lean
strings, a Go `error` is the text of its message (`nil` is `none`), and the
operating system is an explicit file-system state that every operation takes
and returns.  A system call walks along its path element by element: it fails
with "not a directory" when it meets a regular file before the last element
and with "no such file or directory" when it meets nothing.
-/

namespace NMC

set_option maxRecDepth 100000

/-! ## Go values -/

/-- A non-nil Go `error`, represented by its message. -/
abbrev Error := String

/-- A Go byte slice. -/
abbrev Bytes := List (Fin 256)

deriving instance DecidableEq for Except

/-! ## `path/filepath` on Unix -/

/-- The elements of a path between its separators: `strings.Split(p, "/")`. -/
def splitSlash : List Char → List (List Char)
  | [] => [[]]
  | c :: cs =>
    if c = '/' then [] :: splitSlash cs
    else match splitSlash cs with
      | [] => [[c]]
      | x :: xs => (c :: x) :: xs

/-- One round of the loop of `filepath.Clean`, on the output written so far
(a stack of elements, last one first): an empty element and `.` are skipped,
`..` removes the last element when there is one to remove, is dropped at the
root and is kept otherwise, and any other element is appended. -/
def cleanStep (rooted : Bool) (stack : List (List Char)) (c : List Char) : List (List Char) :=
  if c = [] ∨ c = ['.'] then stack
  else if c = ['.', '.'] then
    match stack with
    | [] => if rooted then [] else [c]
    | top :: rest => if top = ['.', '.'] then c :: stack else rest
  else c :: stack

/-- Elements written out with a separator between them. -/
def joinSlash : List (List Char) → List Char
  | [] => []
  | [x] => x
  | x :: xs => x ++ '/' :: joinSlash xs

/-- The elements that `filepath.Clean` keeps, in order. -/
def cleanElems (rooted : Bool) (p : List Char) : List (List Char) :=
  ((splitSlash p).foldl (cleanStep rooted) []).reverse

/-- The function `filepath.Clean` on the characters of a path. -/
def cleanChars (p : List Char) : List Char :=
  if p = [] then ['.']
  else if p.head? = some '/' then '/' :: joinSlash (cleanElems true p)
  else if cleanElems false p = [] then ['.']
  else joinSlash (cleanElems false p)

/-- The function `filepath.Clean`: the shortest path name equivalent to `p` by
purely lexical processing. -/
def Clean (p : String) : String := ⟨cleanChars p.data⟩

/-- The function `strings.Join(elems, "/")`. -/
def stringsJoin : List String → String
  | [] => ""
  | [x] => x
  | x :: xs => x ++ "/" ++ stringsJoin xs

/-- The function `filepath.Join`: leading empty elements are ignored, the rest
is joined with separators and cleaned; the result is empty when every element
is. -/
def Join (elem : List String) : String :=
  match elem.dropWhile (fun e => e = "") with
  | [] => ""
  | rest => Clean (stringsJoin rest)

/-- The prefix of a path up to and including its last separator. -/
def dirPrefix (p : List Char) : List Char :=
  (p.reverse.dropWhile (fun c => c ≠ '/')).reverse

/-- The function `filepath.Dir`: all but the last element of the path, cleaned. -/
def Dir (p : String) : String := Clean ⟨dirPrefix p.data⟩

/-! ## `encoding/hex` -/

/-- The table `"0123456789abcdef"` of `encoding/hex`. -/
def hexDigit (n : Nat) : Char := ("0123456789abcdef".data).getD n '0'

/-- The function `hex.EncodeToString`. -/
def hexEncode : Bytes → List Char
  | [] => []
  | b :: bs => hexDigit (b.val / 16) :: hexDigit (b.val % 16) :: hexEncode bs

/-- The value of a hexadecimal digit, in either case (`reverseHexTable`). -/
def fromHexChar (c : Char) : Option Nat :=
  if 48 ≤ c.toNat ∧ c.toNat ≤ 57 then some (c.toNat - 48)
  else if 97 ≤ c.toNat ∧ c.toNat ≤ 102 then some (c.toNat - 87)
  else if 65 ≤ c.toNat ∧ c.toNat ≤ 70 then some (c.toNat - 55)
  else none

/-- The bytes `hex.DecodeString` returns next to its error: the pairs of digits
decoded before the first invalid character (a trailing single character is not
decoded). -/
def hexDecode : List Char → Bytes
  | p :: q :: rest =>
    match fromHexChar p, fromHexChar q with
    | some a, some b => Fin.ofNat (a * 16 + b) :: hexDecode rest
    | _, _ => []
  | _ => []

/-! ## The file system -/

/-- What a path names. -/
inductive Node where
  | file (content : String)
  | dir
  deriving DecidableEq

/-- A place in the file system: whether the path to it starts at the root, and
the elements of the path after cleaning. -/
structure Loc where
  rooted : Bool
  elems : List (List Char)
  deriving DecidableEq

/-- The place that the path `p` names.  Path resolution is lexical, as there
are no links. -/
def resolve (p : String) : Loc :=
  let rooted : Bool := p.data.head? = some '/'
  ⟨rooted, cleanElems rooted p.data⟩

/-- The path of a place, as `filepath.Clean` writes it. -/
def Loc.path (l : Loc) : String :=
  ⟨if l.rooted then '/' :: joinSlash l.elems
    else if l.elems = [] then ['.'] else joinSlash l.elems⟩

/-- The stacks of `filepath.Clean` after each element of a path but the last:
where a walk along the path stands when it still has an element to go. -/
def walkStacks (rooted : Bool) :
    List (List Char) → List (List Char) → List (List (List Char))
  | _, [] => []
  | _, [_] => []
  | stack, c :: c' :: rest =>
    cleanStep rooted stack c :: walkStacks rooted (cleanStep rooted stack c) (c' :: rest)

/-- The places a walk along the path `p` passes before it reaches the place
that `p` names, in the order of the walk: each must be a directory. -/
def passes (p : String) : List Loc :=
  (walkStacks (p.data.head? = some '/') [] (splitSlash p.data)).map
    (fun stack => ⟨p.data.head? = some '/', stack.reverse⟩)

/-- The state of the file system: what each place holds, and the places on
which every system call fails (permission denied, I/O error).  Links and
permission bits are not modelled: two different places never hold the same
file, and the `DirMode` and `FileMode` arguments of the calls are left out. -/
structure FS where
  node : Loc → Option Node
  fault : Loc → Bool

/-- What is at a place; the root, the current directory and the directories
above the current directory are directories. -/
def FS.entry (fs : FS) (l : Loc) : Option Node :=
  if l.elems.all (fun e => e = ['.', '.']) then some .dir else fs.node l

/-- The content of the regular file at a place, if there is one. -/
def FS.content (fs : FS) (l : Loc) : Option String :=
  match fs.entry l with
  | some (.file content) => some content
  | _ => none

/-- The content of the regular file that the path `p` names, if there is one. -/
def FS.fileAt (fs : FS) (p : String) : Option String := fs.content (resolve p)

/-- How a walk along a path ends before its last element. -/
inductive Reach where
  | ok
  | noEnt
  | notDir
  deriving DecidableEq

/-- The walk along the path `p` up to its last element: it stops at the first
place it passes that is not a directory, with `ENOTDIR` when that place is a
regular file and with `ENOENT` when nothing is there; the empty path names
nothing (`ENOENT`). -/
def FS.reach (fs : FS) (p : String) : Reach :=
  if p = "" then .noEnt
  else match (passes p).find? (fun q => decide (fs.entry q ≠ some .dir)) with
    | none => .ok
    | some q => if (fs.content q).isSome then .notDir else .noEnt

/-- The outcome of `os.Stat` as the callers inspect it. -/
inductive StatResult where
  | ok
  | notExist
  | failed (err : Error)
  deriving DecidableEq

/-- The function `os.Stat`, up to the distinction its callers make with
`os.IsNotExist` / `errors.Is(err, fs.ErrNotExist)`: when an element of the path
before the last one is a regular file the call fails with `ENOTDIR`, which is
not a not-exist error. -/
def FS.Stat (fs : FS) (p : String) : StatResult :=
  if fs.fault (resolve p) then .failed ("stat " ++ p ++ ": permission denied")
  else match fs.reach p with
    | .notDir => .failed ("stat " ++ p ++ ": not a directory")
    | .noEnt => .notExist
    | .ok => match fs.entry (resolve p) with
      | none => .notExist
      | some _ => .ok

/-- The function `os.ReadFile`. -/
def FS.ReadFile (fs : FS) (p : String) : Except Error String :=
  if fs.fault (resolve p) then .error ("open " ++ p ++ ": permission denied")
  else match fs.reach p with
    | .notDir => .error ("open " ++ p ++ ": not a directory")
    | .noEnt => .error ("open " ++ p ++ ": no such file or directory")
    | .ok => match fs.entry (resolve p) with
      | none => .error ("open " ++ p ++ ": no such file or directory")
      | some .dir => .error ("read " ++ p ++ ": is a directory")
      | some (.file content) => .ok content

/-- The function `os.MkdirAll`: fails when `d` or one of the places on the way
to it is a regular file, naming the first of them, and otherwise creates those
of them that do not exist. -/
def FS.MkdirAll (fs : FS) (d : String) : Except Error FS :=
  if fs.fault (resolve d) then .error ("mkdir " ++ d ++ ": permission denied")
  else match (passes d ++ [resolve d]).find? (fun q => (fs.content q).isSome) with
    | some q => .error ("mkdir " ++ q.path ++ ": not a directory")
    | none =>
      .ok ⟨fun q => if q ∈ passes d ++ [resolve d] ∧ fs.entry q = none
        then some .dir else fs.node q, fs.fault⟩

/-- The function `os.WriteFile`: creates or truncates the file at `p` and
writes `data`; fails when the walk to `p` fails (in particular when its parent
directory does not exist) or `p` is a directory. -/
def FS.WriteFile (fs : FS) (p : String) (data : String) : Except Error FS :=
  if fs.fault (resolve p) then .error ("open " ++ p ++ ": permission denied")
  else match fs.reach p with
    | .notDir => .error ("open " ++ p ++ ": not a directory")
    | .noEnt => .error ("open " ++ p ++ ": no such file or directory")
    | .ok =>
      if fs.entry (resolve p) = some .dir then .error ("open " ++ p ++ ": is a directory")
      else .ok ⟨fun q => if q = resolve p then some (.file data) else fs.node q, fs.fault⟩

/-- The file system with nothing in it. -/
def FS.empty : FS := ⟨fun _ => none, fun _ => false⟩

/-! ## `beacon` types used by the keystore manager -/

/-- Modelled from the spec: the type `beacon.ValidatorPubkey`, a "fixed-length
byte sequence (BLS public-key encoding, 48 bytes)" whose equality is
byte-wise. -/
structure ValidatorPubkey where
  bytes : Bytes
  size : bytes.length = 48
  deriving DecidableEq

/-- Modelled from the spec: `ValidatorPubkey.HexWithPrefix` of package
`beacon`, the "canonical hex-with-prefix textual representation used for
filenames and diagnostics": `0x` followed by the lower-case hexadecimal digits
of the 48 bytes. -/
def ValidatorPubkey.HexWithPrefix (pubkey : ValidatorPubkey) : String :=
  ⟨'0' :: 'x' :: hexEncode pubkey.bytes⟩

/-- The type `uuid.UUID`. -/
abbrev UUID := Bytes

/-- Modelled from the spec: the record `beacon.ValidatorKeystore` with its
fields `crypto`, `version`, `uuid`, `path` and `pubkey`, which are the fields
`StoreValidatorKey` fills in; `Blob` is the encrypted-key structure of the
encryptor. -/
structure ValidatorKeystore (Blob : Type) where
  Crypto : Blob
  Version : Nat
  UUID : UUID
  Path : String
  Pubkey : ValidatorPubkey
  deriving DecidableEq

/-- The libraries the keystore manager calls: the BLS keys of `go-eth2-types`
(`PublicKey` is `key.PublicKey().Marshal()` as a `ValidatorPubkey`), the
keystore-v4 encryptor, and the JSON codec on `ValidatorKeystore`.  The
randomness an encryption draws is part of the `Encrypt` passed in. -/
structure Libs (Key Blob : Type) where
  PublicKey : Key → ValidatorPubkey
  Marshal : Key → Bytes
  BLSPrivateKeyFromBytes : Bytes → Except Error Key
  Encrypt : Bytes → String → Except Error Blob
  Decrypt : Blob → String → Except Error Bytes
  Version : Nat
  jsonMarshal : ValidatorKeystore Blob → Except Error String
  jsonUnmarshal : String → Except Error (ValidatorKeystore Blob)

/-! ## `node/validator/keystore/lodestar.go` -/

/-- Lodestar keystore manager (the `encryptor` field is in `Libs`). -/
structure LodestarKeystoreManager where
  keystoreDir : String
  validatorsDir : String
  secretsDir : String
  keyFileName : String
  deriving DecidableEq

/-- Create new lodestar keystore manager. -/
def NewLodestarKeystoreManager (keystorePath : String) : LodestarKeystoreManager :=
  ⟨Join [keystorePath, "lodestar"], "validators", "secrets", "voting-keystore.json"⟩

/-- Get the keystore directory. -/
def LodestarKeystoreManager.GetKeystoreDir (ks : LodestarKeystoreManager) : String :=
  ks.keystoreDir

/-- The secret file path of `StoreValidatorKey` and `LoadValidatorKey`. -/
def LodestarKeystoreManager.secretFilePath (ks : LodestarKeystoreManager)
    (pubkey : ValidatorPubkey) : String :=
  Join [ks.keystoreDir, ks.secretsDir, pubkey.HexWithPrefix]

/-- The key file path of `StoreValidatorKey` and `LoadValidatorKey`. -/
def LodestarKeystoreManager.keyFilePath (ks : LodestarKeystoreManager)
    (pubkey : ValidatorPubkey) : String :=
  Join [ks.keystoreDir, ks.validatorsDir, pubkey.HexWithPrefix, ks.keyFileName]

/-- Store a validator key.  `password` is what `utils.GenerateRandomPassword()`
returns in this call and `id` what `uuid.New()` returns; the result is the file
system after the call and the error returned. -/
def LodestarKeystoreManager.StoreValidatorKey {Key Blob : Type} (lib : Libs Key Blob)
    (ks : LodestarKeystoreManager) (password : Except Error String) (id : UUID)
    (fs : FS) (key : Key) (derivationPath : String) : FS × Option Error :=
  -- Get validator pubkey
  let pubkey := lib.PublicKey key
  -- Create a new password
  match password with
  | .error err => (fs, some ("error generating random password: " ++ err))
  | .ok password =>
  -- Encrypt key
  match lib.Encrypt (lib.Marshal key) password with
  | .error err => (fs, some ("error encrypting validator key: " ++ err))
  | .ok encryptedKey =>
  -- Create key store
  let keyStore : ValidatorKeystore Blob :=
    ⟨encryptedKey, lib.Version, id, derivationPath, pubkey⟩
  -- Encode key store
  match lib.jsonMarshal keyStore with
  | .error err => (fs, some ("error encoding validator key: " ++ err))
  | .ok keyStoreBytes =>
  -- Get secret file path
  let secretFilePath := Join [ks.keystoreDir, ks.secretsDir, pubkey.HexWithPrefix]
  -- Create secrets dir
  match fs.MkdirAll (Dir secretFilePath) with
  | .error err => (fs, some ("error creating validator secrets folder: " ++ err))
  | .ok fs1 =>
  -- Write secret to disk
  match fs1.WriteFile secretFilePath password with
  | .error err => (fs1, some ("error writing validator secret to disk: " ++ err))
  | .ok fs2 =>
  -- Get key file path
  let keyFilePath :=
    Join [ks.keystoreDir, ks.validatorsDir, pubkey.HexWithPrefix, ks.keyFileName]
  -- Create key dir
  match fs2.MkdirAll (Dir keyFilePath) with
  | .error err => (fs2, some ("error creating validator key folder: " ++ err))
  | .ok fs3 =>
  -- Write key store to disk
  match fs3.WriteFile keyFilePath keyStoreBytes with
  | .error err => (fs3, some ("error writing validator key to disk: " ++ err))
  | .ok fs4 => (fs4, none)

/-- Load a private key.  The result is the pair the Go function returns: the
key (`none` for `nil`) and the error (`none` for `nil`). -/
def LodestarKeystoreManager.LoadValidatorKey {Key Blob : Type} (lib : Libs Key Blob)
    (ks : LodestarKeystoreManager) (fs : FS) (pubkey : ValidatorPubkey) :
    Option Key × Option Error :=
  -- Get key file path
  let keyFilePath :=
    Join [ks.keystoreDir, ks.validatorsDir, pubkey.HexWithPrefix, ks.keyFileName]
  -- Read the key file
  match fs.Stat keyFilePath with
  | .notExist => (none, none)
  | .failed err =>
    (none, some ("couldn't open the Lodestar keystore for pubkey "
      ++ pubkey.HexWithPrefix ++ ": " ++ err))
  | .ok =>
  match fs.ReadFile keyFilePath with
  | .error err =>
    (none, some ("couldn't read the Lodestar keystore for pubkey "
      ++ pubkey.HexWithPrefix ++ ": " ++ err))
  | .ok bytes =>
  -- Unmarshal the keystore
  match lib.jsonUnmarshal bytes with
  | .error err =>
    (none, some ("error deserializing Lodestar keystore for pubkey "
      ++ pubkey.HexWithPrefix ++ ": " ++ err))
  | .ok keystore =>
  -- Get secret file path
  let secretFilePath := Join [ks.keystoreDir, ks.secretsDir, pubkey.HexWithPrefix]
  -- Read secret from disk
  match fs.Stat secretFilePath with
  | .notExist => (none, none)
  | .failed err =>
    (none, some ("couldn't open the Lodestar secret for pubkey "
      ++ pubkey.HexWithPrefix ++ ": " ++ err))
  | .ok =>
  match fs.ReadFile secretFilePath with
  | .error err =>
    (none, some ("couldn't read the Lodestar secret for pubkey "
      ++ pubkey.HexWithPrefix ++ ": " ++ err))
  | .ok bytes =>
  -- Decrypt key
  let password := bytes
  match lib.Decrypt keystore.Crypto password with
  | .error err =>
    (none, some ("couldn't decrypt keystore for pubkey "
      ++ pubkey.HexWithPrefix ++ ": " ++ err))
  | .ok decryptedKey =>
  match lib.BLSPrivateKeyFromBytes decryptedKey with
  | .error err =>
    (none, some ("error recreating private key for validator "
      ++ keystore.Pubkey.HexWithPrefix ++ ": " ++ err))
  | .ok privateKey =>
  -- Verify the private key matches the public key
  let reconstructedPubkey := lib.PublicKey privateKey
  if reconstructedPubkey ≠ pubkey then
    (none, some ("private keystore file " ++ keyFilePath
      ++ " claims to be for validator " ++ pubkey.HexWithPrefix
      ++ " but it's for validator " ++ reconstructedPubkey.HexWithPrefix))
  else (some privateKey, none)

/-- What `LoadValidatorKey` does with the two files once it has read them
(lines 118-123 and 140-157): `keyStoreBytes` is the content of the key file at
`keyFilePath` and `password` the content of the secret file. -/
def decodeValidatorKey {Key Blob : Type} (lib : Libs Key Blob) (keyFilePath : String)
    (pubkey : ValidatorPubkey) (keyStoreBytes password : String) :
    Option Key × Option Error :=
  -- Unmarshal the keystore
  match lib.jsonUnmarshal keyStoreBytes with
  | .error err =>
    (none, some ("error deserializing Lodestar keystore for pubkey "
      ++ pubkey.HexWithPrefix ++ ": " ++ err))
  | .ok keystore =>
  -- Decrypt key
  match lib.Decrypt keystore.Crypto password with
  | .error err =>
    (none, some ("couldn't decrypt keystore for pubkey "
      ++ pubkey.HexWithPrefix ++ ": " ++ err))
  | .ok decryptedKey =>
  match lib.BLSPrivateKeyFromBytes decryptedKey with
  | .error err =>
    (none, some ("error recreating private key for validator "
      ++ keystore.Pubkey.HexWithPrefix ++ ": " ++ err))
  | .ok privateKey =>
  -- Verify the private key matches the public key
  let reconstructedPubkey := lib.PublicKey privateKey
  if reconstructedPubkey ≠ pubkey then
    (none, some ("private keystore file " ++ keyFilePath
      ++ " claims to be for validator " ++ pubkey.HexWithPrefix
      ++ " but it's for validator " ++ reconstructedPubkey.HexWithPrefix))
  else (some privateKey, none)

/-! ## `time` -/

/-- The constant `unixToInternal` of package `time`: the seconds from January
1, year 1 to January 1, 1970. -/
def unixToInternal : Int := 62135596800

/-- The result of an `int64` computation whose exact value is `x`: the value
wrapped into the int64 range. -/
def wrapInt64 (x : Int) : Int := (x + 2 ^ 63) % 2 ^ 64 - 2 ^ 63

/-- A `time.Time` without monotonic clock reading: its field `ext`, the seconds
since January 1, year 1 (an int64), and the nanoseconds within the second. -/
structure Time where
  ext : Int
  nsec : Nat
  deriving DecidableEq

/-- The function `time.Unix(sec, 0)`: it adds `unixToInternal` to the seconds
in int64 arithmetic, so the sum wraps for `sec` above `2^63 - 1 - 62135596800`. -/
def Unix (sec : Int) : Time := ⟨wrapInt64 (sec + unixToInternal), 0⟩

/-- The zero value `time.Time{}`: January 1, year 1, 00:00:00 UTC. -/
def zeroTime : Time := ⟨0, 0⟩

/-- The instant `sec` seconds after January 1, 1970 UTC: the Unix time `sec`. -/
def atUnix (sec : Int) : Time := ⟨sec + unixToInternal, 0⟩

/-- The nanoseconds from the instant `u` to the instant `t`, exactly. -/
def Time.nanosSince (t u : Time) : Int :=
  (t.ext - u.ext) * 1000000000 + ((t.nsec : Int) - (u.nsec : Int))

/-- The largest `time.Duration`, in nanoseconds. -/
def maxDuration : Int := 2 ^ 63 - 1

/-- The smallest `time.Duration`, in nanoseconds. -/
def minDuration : Int := -(2 ^ 63)

/-- The method `Time.Sub`: the duration `t - u` in nanoseconds; when it does
not fit a `Duration` the largest (or smallest) duration is returned. -/
def Time.Sub (t u : Time) : Int :=
  if t.nanosSince u > maxDuration then maxDuration
  else if t.nanosSince u < minDuration then minDuration
  else t.nanosSince u

/-- The function `time.Since`, with the reading of the system clock given. -/
def Since (now t : Time) : Int := now.Sub t

/-- The conversion `int64(x)` of a `uint64`. -/
def int64 (x : Nat) : Int :=
  if x % 2 ^ 64 < 2 ^ 63 then ((x % 2 ^ 64 : Nat) : Int)
  else ((x % 2 ^ 64 : Nat) : Int) - 2 ^ 64

/-! ## `node/services/utils.go` -/

/-- The block header of the execution client, with its `Time` field (a
`uint64`, in seconds). -/
structure Header where
  Time : Nat
  deriving DecidableEq

/-- The constant `ethClientRecentBlockThreshold`: 5 minutes, in nanoseconds. -/
def ethClientRecentBlockThreshold : Int := 5 * (60 * 1000000000)

/-- The function `GetEthClientLatestBlockTimestamp`; `ec` is what
`ec.HeaderByNumber(context.Background(), nil)` returns. -/
def GetEthClientLatestBlockTimestamp (ec : Except Error Header) : Nat × Option Error :=
  -- Get latest block
  match ec with
  | .error err => (0, some err)
  -- Return block timestamp
  | .ok header => (header.Time, none)

/-- Confirm the EC's latest block is within the threshold of the current
system clock; `now` is the reading of the system clock. -/
def IsSyncWithinThreshold (ec : Except Error Header) (now : Time) :
    Bool × Time × Option Error :=
  match GetEthClientLatestBlockTimestamp ec with
  | (_, some err) => (false, zeroTime, some err)
  | (timestamp, none) =>
  -- Return true if the latest block is under the threshold
  let blockTime := Unix (int64 timestamp)
  if Since now blockTime < ethClientRecentBlockThreshold then (true, blockTime, none)
  else (false, blockTime, none)

/-! ## `common.Address` of go-ethereum -/

/-- The type `common.Address`: 20 bytes. -/
structure Address where
  bytes : Bytes
  size : bytes.length = 20
  deriving DecidableEq

/-- The zero value `common.Address{}`. -/
def Address.zero : Address := ⟨List.replicate 20 0, by simp⟩

/-- The loop of `Address.checksumHex` from digit `j` on: a letter is put in
upper case when the corresponding nibble of the hash is above 7. -/
def checksumCase (hash : Bytes) : Nat → List Char → List Char
  | _, [] => []
  | j, c :: cs =>
    let hashByte := (hash.getD (j / 2) 0).val
    let nibble := if j % 2 = 0 then hashByte / 16 else hashByte % 16
    (if c.toNat > 57 ∧ nibble > 7 then Char.ofNat (c.toNat - 32) else c)
      :: checksumCase hash (j + 1) cs

/-- The method `Address.Hex`: the EIP-55 mixed-case hexadecimal form, with
prefix; `keccak256` is the legacy Keccak-256 hash of the lower-case digits. -/
def Address.Hex (keccak256 : List Char → Bytes) (a : Address) : String :=
  let digits := hexEncode a.bytes
  ⟨'0' :: 'x' :: checksumCase (keccak256 digits) 0 digits⟩

/-- The function `common.FromHex`: an optional `0x` prefix is dropped, a digit
`0` is put in front of an odd number of digits, and the digits are decoded. -/
def FromHex (s : List Char) : Bytes :=
  let s := match s with
    | '0' :: 'x' :: rest => rest
    | '0' :: 'X' :: rest => rest
    | _ => s
  let s := if s.length % 2 = 1 then '0' :: s else s
  hexDecode s

/-- The bytes of `common.BytesToAddress(b)`: the last 20 bytes of `b`,
padded with zeroes on the left. -/
def cropPad (b : Bytes) : Bytes :=
  List.replicate (20 - b.length) 0 ++ b.drop (b.length - 20)

/-- The function `common.BytesToAddress`. -/
def BytesToAddress (b : Bytes) : Address :=
  ⟨cropPad b, by simp only [cropPad, List.length_append, List.length_replicate,
    List.length_drop]; omega⟩

/-- The function `common.HexToAddress`. -/
def HexToAddress (s : String) : Address := BytesToAddress (FromHex s.data)

/-! ## `node/wallet/address-manager.go` -/

/-- Simple class to wrap the node's address file. -/
structure addressManager where
  path : String
  address : Address
  isLoaded : Bool
  deriving DecidableEq

/-- Creates a new address manager. -/
def newAddressManager (path : String) : addressManager := ⟨path, Address.zero, false⟩

/-- Gets the address saved on disk. Returns false if the address file doesn't
exist.  The result is the manager after the call and the returned triple. -/
def addressManager.LoadAddress (m : addressManager) (fs : FS) :
    addressManager × (Address × Bool × Option Error) :=
  let m : addressManager := ⟨m.path, Address.zero, false⟩
  match fs.Stat m.path with
  | .notExist => (m, (Address.zero, false, none))
  | .failed err =>
    (m, (Address.zero, false, some ("error checking if address file exists: " ++ err)))
  | .ok =>
  match fs.ReadFile m.path with
  | .error err =>
    (m, (Address.zero, false,
      some ("error loading address file [" ++ m.path ++ "]: " ++ err)))
  | .ok bytes =>
  let m : addressManager := ⟨m.path, HexToAddress bytes, true⟩
  (m, (m.address, true, none))

/-- Get the cached address. -/
def addressManager.GetAddress (m : addressManager) : Address × Bool :=
  (m.address, m.isLoaded)

/-- Sets the node address without saving it to disk. -/
def addressManager.SetAddress (m : addressManager) (newAddress : Address) : addressManager :=
  ⟨m.path, newAddress, true⟩

/-- Sets the node address and saves it to disk.  The result is the manager and
the file system after the call, and the error returned. -/
def addressManager.SetAndSaveAddress (keccak256 : List Char → Bytes) (m : addressManager)
    (fs : FS) (newAddress : Address) : addressManager × FS × Option Error :=
  let m : addressManager := ⟨m.path, newAddress, true⟩
  let bytes := newAddress.Hex keccak256
  match fs.WriteFile m.path bytes with
  | .error err =>
    (m, fs, some ("error writing address file [" ++ m.path ++ "] to disk: " ++ err))
  | .ok fs1 => (m, fs1, none)

/-! ## Instances used to evaluate the definitions -/

/-- A key store of one byte per key, for evaluating the keystore manager: the
public key repeats the byte 48 times, the encrypted blob is the pair of the
plain bytes and the password and is decrypted by the same password only. -/
def demoLibs (codec : List (ValidatorKeystore (Bytes × String) × String)) :
    Libs (Fin 256) (Bytes × String) :=
  ⟨fun k => ⟨List.replicate 48 k, by simp⟩,
   fun k => [k],
   fun b => match b with
     | [k] => .ok k
     | _ => .error "invalid private key",
   fun b p => .ok (b, p),
   fun blob p => if blob.2 = p then .ok blob.1 else .error "invalid passphrase",
   4,
   fun ks => match codec.find? (fun e => e.1 = ks) with
     | some e => .ok e.2
     | none => .error "unsupported value",
   fun s => match codec.find? (fun e => e.2 = s) with
     | some e => .ok e.1
     | none => .error "invalid character"⟩

/-- The keystore record that storing the key `7` produces with password `pw`. -/
def demoRecord : ValidatorKeystore (Bytes × String) :=
  ⟨([7], "pw"), 4, [1, 2, 3], "m/12381/3600/0/0/0", ⟨List.replicate 48 7, by simp⟩⟩

/-- The libraries of the evaluations: the JSON codec knows `demoRecord`. -/
def demoLib : Libs (Fin 256) (Bytes × String) := demoLibs [(demoRecord, "keystore-of-07")]

/-- The keystore manager of the evaluations. -/
def demoManager : LodestarKeystoreManager := NewLodestarKeystoreManager "/data"

/-- A file system that holds the regular files listed in `files` with their
content, and the directories on the way to them. -/
def FS.ofFiles (files : List (String × String)) : FS :=
  ⟨fun q => match files.find? (fun e => resolve e.1 = q) with
    | some e => some (Node.file e.2)
    | none => if files.any (fun e => q ∈ passes e.1) then some Node.dir else none,
   fun _ => false⟩

/-- The libraries `lib` with a JSON decoder that changes the `pubkey` field of
every record it reads by `g`. -/
def Libs.withRecordPubkey {Key Blob : Type} (lib : Libs Key Blob)
    (g : ValidatorPubkey → ValidatorPubkey) : Libs Key Blob :=
  ⟨lib.PublicKey, lib.Marshal, lib.BLSPrivateKeyFromBytes, lib.Encrypt, lib.Decrypt,
    lib.Version, lib.jsonMarshal,
    fun s => match lib.jsonUnmarshal s with
      | .error err => .error err
      | .ok record => .ok ⟨record.Crypto, record.Version, record.UUID, record.Path,
          g record.Pubkey⟩⟩

/-- The libraries `lib` with another `Decrypt`. -/
def Libs.withDecrypt {Key Blob : Type} (lib : Libs Key Blob)
    (decrypt : Blob → String → Except Error Bytes) : Libs Key Blob :=
  ⟨lib.PublicKey, lib.Marshal, lib.BLSPrivateKeyFromBytes, lib.Encrypt, decrypt, lib.Version,
    lib.jsonMarshal, lib.jsonUnmarshal⟩

/-- Whether a call returned an error. -/
def failed {α : Type} : Except Error α → Bool
  | .error _ => true
  | .ok _ => false

/-- A file system in which `/data/lodestar/validators` is a regular file. -/
def blockedFS : FS := FS.ofFiles [("/data/lodestar/validators", "")]

/-- A file system whose only entry is the directory `/data`. -/
def dataFS : FS :=
  ⟨fun q => if q = resolve "/data" then some Node.dir else none, fun _ => false⟩

/-- The public key of the demonstration key `9`. -/
def otherPubkey : ValidatorPubkey := ⟨List.replicate 48 9, by simp⟩

/-- A file system in which the files at the paths of `otherPubkey` are the
keystore record and the password of the key `7`. -/
def misplacedFS : FS :=
  FS.ofFiles [(demoManager.keyFilePath otherPubkey, "keystore-of-07"),
    (demoManager.secretFilePath otherPubkey, "pw")]

/-- A file system with the keystore file of the key `7` and another password
in its secret file. -/
def wrongSecretFS : FS :=
  FS.ofFiles [(demoManager.keyFilePath (demoLib.PublicKey 7), "keystore-of-07"),
    (demoManager.secretFilePath (demoLib.PublicKey 7), "another password")]

/-- A file system with the keystore file of the key `7` and no secret file. -/
def noSecretFS : FS :=
  FS.ofFiles [(demoManager.keyFilePath (demoLib.PublicKey 7), "keystore-of-07")]

/-- The file system after storing the key `7` in an empty one. -/
def storedFS : FS :=
  (demoManager.StoreValidatorKey demoLib (.ok "pw") [1, 2, 3] FS.empty 7
    "m/12381/3600/0/0/0").1

/-- A file system with the keystore file of the key `7`, in which
`/data/lodestar/secrets` is a regular file. -/
def blockedSecretsFS : FS :=
  FS.ofFiles [(demoManager.keyFilePath (demoLib.PublicKey 7), "keystore-of-07"),
    ("/data/lodestar/secrets", "")]

/-- A file system with the secret file of the key `7` and no keystore file. -/
def secretOnlyFS : FS :=
  FS.ofFiles [(demoManager.secretFilePath (demoLib.PublicKey 7), "pw")]

/-- A file system with a keystore file for the key `7` that is not a keystore
record, and no secret file. -/
def brokenKeystoreFS : FS :=
  FS.ofFiles [(demoManager.keyFilePath (demoLib.PublicKey 7), "not a keystore")]

/-- A file system in which `/data` is a regular file. -/
def dataIsFileFS : FS := FS.ofFiles [("/data", "")]

/-- Another address, twenty times the byte `0x01`. -/
def otherAddress : Address := ⟨List.replicate 20 1, by simp⟩

/-- An address, twenty times the byte `0xab`. -/
def demoAddress : Address := ⟨List.replicate 20 171, by simp⟩

/-- A stand-in for Keccak-256 whose digest has every bit set. -/
def demoKeccak : List Char → Bytes := fun _ => List.replicate 32 255

/-! ## Auxiliary predicates on paths -/

/-- The output stacks that the loop of `filepath.Clean` can reach: no element
contains a separator, and each element is one the loop appends to what is
below it. -/
def StackOK (rooted : Bool) : List (List Char) → Prop
  | [] => True
  | c :: rest => StackOK rooted rest ∧ '/' ∉ c ∧ cleanStep rooted rest c = c :: rest

/-- A path element that `filepath.Clean` keeps as it is. -/
def PlainElem (c : List Char) : Prop :=
  c ≠ [] ∧ c ≠ ['.'] ∧ c ≠ ['.', '.'] ∧ '/' ∉ c

/-! ## Lemmas on `filepath.Clean` and `filepath.Join` -/

theorem splitSlash_ne_nil (p : List Char) : splitSlash p ≠ [] := by
  cases p with
  | nil => simp [splitSlash]
  | cons c cs =>
    unfold splitSlash
    split
    · simp
    · split <;> simp

theorem splitSlash_append (u v : List Char) :
    splitSlash (u ++ '/' :: v) = splitSlash u ++ splitSlash v := by
  induction u with
  | nil => simp [splitSlash]
  | cons c u ih =>
    by_cases hc : c = '/'
    · simp [splitSlash, hc, ih]
    · have hne := splitSlash_ne_nil u
      cases hu : splitSlash u with
      | nil => exact absurd hu hne
      | cons x xs =>
        simp [splitSlash, hc, ih, hu]

theorem splitSlash_of_not_mem {c : List Char} (h : '/' ∉ c) : splitSlash c = [c] := by
  induction c with
  | nil => rfl
  | cons a c ih =>
    have ha : a ≠ '/' := fun e => h (by simp [e])
    have hc : '/' ∉ c := fun e => h (by simp [e])
    simp [splitSlash, ha, ih hc]

theorem not_mem_of_mem_splitSlash (p : List Char) :
    ∀ c ∈ splitSlash p, '/' ∉ c := by
  induction p with
  | nil => simp [splitSlash]
  | cons a p ih =>
    by_cases ha : a = '/'
    · simp only [splitSlash, ha, if_true, List.mem_cons]
      rintro c (rfl | hc)
      · simp
      · exact ih c hc
    · cases hp : splitSlash p with
      | nil => exact absurd hp (splitSlash_ne_nil p)
      | cons x xs =>
        rw [hp] at ih
        simp only [splitSlash, ha, if_false, hp, List.mem_cons]
        rintro c (rfl | hc)
        · intro hmem
          rcases List.mem_cons.1 hmem with e | e
          · exact ha e.symm
          · exact ih x (by simp) e
        · exact ih c (by simp [hc])

theorem joinSlash_cons_cons (x y : List Char) (ys : List (List Char)) :
    joinSlash (x :: y :: ys) = x ++ '/' :: joinSlash (y :: ys) := rfl

theorem splitSlash_joinSlash (cs : List (List Char)) (hne : cs ≠ [])
    (h : ∀ c ∈ cs, '/' ∉ c) : splitSlash (joinSlash cs) = cs := by
  induction cs with
  | nil => exact absurd rfl hne
  | cons x xs ih =>
    cases xs with
    | nil => simpa [joinSlash] using splitSlash_of_not_mem (h x (by simp))
    | cons y ys =>
      have hx := splitSlash_of_not_mem (h x (by simp))
      have := ih (by simp) (fun c hc => h c (by simp [hc]))
      rw [joinSlash_cons_cons, splitSlash_append, hx, this]
      rfl

theorem stackOK_tail {r : Bool} {c : List Char} {st : List (List Char)}
    (h : StackOK r (c :: st)) : StackOK r st := h.1

theorem stackOK_step {r : Bool} {st : List (List Char)} {c : List Char}
    (h : StackOK r st) (hc : '/' ∉ c) : StackOK r (cleanStep r st c) := by
  unfold cleanStep
  split
  · exact h
  · rename_i h1
    split
    · rename_i h2
      subst h2
      cases st with
      | nil =>
        cases r
        · simp [StackOK, cleanStep]
        · simp [StackOK]
      | cons top rest =>
        simp only
        split
        · rename_i h3
          refine ⟨h, hc, ?_⟩
          simp [cleanStep, h3]
        · exact h.1
    · rename_i h2
      refine ⟨h, hc, ?_⟩
      simp only [cleanStep, h1, h2, if_false]

theorem stackOK_foldl {r : Bool} (xs : List (List Char)) :
    ∀ st, StackOK r st → (∀ c ∈ xs, '/' ∉ c) → StackOK r (xs.foldl (cleanStep r) st) := by
  induction xs with
  | nil => intro st h _; exact h
  | cons x xs ih =>
    intro st h hx
    simp only [List.foldl_cons]
    exact ih _ (stackOK_step h (hx x (by simp))) (fun c hc => hx c (by simp [hc]))

theorem stackOK_replay {r : Bool} (st : List (List Char)) (h : StackOK r st) :
    st.reverse.foldl (cleanStep r) [] = st := by
  induction st with
  | nil => rfl
  | cons c rest ih =>
    rw [List.reverse_cons, List.foldl_append, ih h.1]
    simp only [List.foldl_cons, List.foldl_nil]
    exact h.2.2

theorem stackOK_mem {r : Bool} (st : List (List Char)) (h : StackOK r st) :
    ∀ c ∈ st, c ≠ [] ∧ '/' ∉ c := by
  induction st with
  | nil => simp
  | cons x rest ih =>
    intro c hc
    rcases List.mem_cons.1 hc with rfl | hc
    · refine ⟨?_, h.2.1⟩
      intro e
      have := h.2.2
      rw [e] at this
      simp [cleanStep] at this
    · exact ih h.1 c hc

theorem stackOK_cleanFold (r : Bool) (p : List Char) :
    StackOK r ((splitSlash p).foldl (cleanStep r) []) :=
  stackOK_foldl _ _ trivial (not_mem_of_mem_splitSlash p)

theorem cleanElems_mem (r : Bool) (p : List Char) :
    ∀ c ∈ cleanElems r p, c ≠ [] ∧ '/' ∉ c := by
  intro c hc
  exact stackOK_mem _ (stackOK_cleanFold r p) c (by simpa [cleanElems] using hc)

theorem cleanElems_replay (r : Bool) (p : List Char) :
    (cleanElems r p).foldl (cleanStep r) [] = (splitSlash p).foldl (cleanStep r) [] :=
  stackOK_replay _ (stackOK_cleanFold r p)


theorem cleanChars_ne_nil (p : List Char) : cleanChars p ≠ [] := by
  unfold cleanChars
  split
  · simp
  · split
    · simp
    · split
      · simp
      · rename_i h
        intro e
        cases hes : cleanElems false p with
        | nil => exact h hes
        | cons x xs =>
          have hx := (cleanElems_mem false p x (by simp [hes])).1
          rw [hes] at e
          cases xs with
          | nil => exact hx (by simpa [joinSlash] using e)
          | cons y ys => rw [joinSlash_cons_cons] at e; simp at e

theorem head_joinSlash_ne (es : List (List Char)) (h : ∀ c ∈ es, c ≠ [] ∧ '/' ∉ c) :
    (joinSlash es).head? ≠ some '/' := by
  cases es with
  | nil => simp [joinSlash]
  | cons x xs =>
    have hx := h x (by simp)
    cases x with
    | nil => exact absurd rfl hx.1
    | cons a x =>
      have ha : a ≠ '/' := fun e => hx.2 (by simp [e])
      cases xs with
      | nil => simpa [joinSlash] using ha
      | cons y ys => rw [joinSlash_cons_cons]; simpa using ha

theorem head_cleanChars (p : List Char) (hp : p ≠ []) :
    (cleanChars p).head? = some '/' ↔ p.head? = some '/' := by
  unfold cleanChars
  rw [if_neg hp]
  by_cases h : p.head? = some '/'
  · simp [h]
  · rw [if_neg h]
    split
    · simp [h]
    · simp only [h, iff_false]
      exact head_joinSlash_ne _ (cleanElems_mem false p)

theorem foldl_split_joinSlash (r : Bool) (p : List Char) :
    (splitSlash (joinSlash (cleanElems r p))).foldl (cleanStep r) []
      = (splitSlash p).foldl (cleanStep r) [] := by
  by_cases h : cleanElems r p = []
  · have h2 : (splitSlash p).foldl (cleanStep r) [] = [] := by
      simpa [cleanElems] using h
    rw [h, h2]
    simp [joinSlash, splitSlash, cleanStep]
  · rw [splitSlash_joinSlash _ h (fun c hc => (cleanElems_mem r p c hc).2)]
    exact cleanElems_replay r p

theorem foldl_split_cleanChars_rooted (p : List Char) (h : p.head? = some '/') :
    (splitSlash (cleanChars p)).foldl (cleanStep true) []
      = (splitSlash p).foldl (cleanStep true) [] := by
  have hp : p ≠ [] := by rintro rfl; simp at h
  unfold cleanChars
  rw [if_neg hp, if_pos h]
  have : splitSlash ('/' :: joinSlash (cleanElems true p))
      = [] :: splitSlash (joinSlash (cleanElems true p)) := by simp [splitSlash]
  rw [this, List.foldl_cons]
  have h0 : cleanStep true [] [] = [] := by simp [cleanStep]
  rw [h0]
  exact foldl_split_joinSlash true p

theorem foldl_split_cleanChars_rel (p : List Char) (hp : p ≠ []) (h : p.head? ≠ some '/') :
    (splitSlash (cleanChars p)).foldl (cleanStep false) []
      = (splitSlash p).foldl (cleanStep false) [] := by
  unfold cleanChars
  rw [if_neg hp, if_neg h]
  split
  · rename_i he
    have h2 : (splitSlash p).foldl (cleanStep false) [] = [] := by
      simpa [cleanElems] using he
    rw [h2]
    simp [splitSlash, cleanStep]
  · exact foldl_split_joinSlash false p

theorem cleanElems_append (r : Bool) (x y : List Char) :
    cleanElems r (x ++ '/' :: y)
      = ((splitSlash y).foldl (cleanStep r) ((splitSlash x).foldl (cleanStep r) [])).reverse := by
  simp [cleanElems, splitSlash_append, List.foldl_append]

theorem cleanChars_rooted (p : List Char) (h : p.head? = some '/') :
    cleanChars p = '/' :: joinSlash (cleanElems true p) := by
  have hp : p ≠ [] := by rintro rfl; simp at h
  unfold cleanChars
  rw [if_neg hp, if_pos h]

theorem cleanChars_rel (p : List Char) (hp : p ≠ []) (h : p.head? ≠ some '/') :
    cleanChars p
      = if cleanElems false p = [] then ['.'] else joinSlash (cleanElems false p) := by
  unfold cleanChars
  rw [if_neg hp, if_neg h]

theorem cleanChars_clean_append (x y : List Char) (hx : x ≠ []) :
    cleanChars (cleanChars x ++ '/' :: y) = cleanChars (x ++ '/' :: y) := by
  have hc := cleanChars_ne_nil x
  have hh := head_cleanChars x hx
  have e1 : (cleanChars x ++ '/' :: y).head? = (cleanChars x).head? := by
    cases hcx : cleanChars x with
    | nil => exact absurd hcx hc
    | cons a l => simp
  have e2 : (x ++ '/' :: y).head? = x.head? := by
    cases x with
    | nil => exact absurd rfl hx
    | cons a l => simp
  have n1 : cleanChars x ++ '/' :: y ≠ [] := by simp
  have n2 : x ++ '/' :: y ≠ [] := by simp
  by_cases h : x.head? = some '/'
  · have h' := hh.2 h
    rw [cleanChars_rooted _ (e1.trans h'), cleanChars_rooted _ (e2.trans h)]
    rw [cleanElems_append, cleanElems_append, foldl_split_cleanChars_rooted x h]
  · have h' : (cleanChars x).head? ≠ some '/' := fun e => h (hh.1 e)
    rw [cleanChars_rel _ n1 (by rw [e1]; exact h'), cleanChars_rel _ n2 (by rw [e2]; exact h)]
    rw [cleanElems_append, cleanElems_append, foldl_split_cleanChars_rel x hx h]

theorem cleanElems_snoc (r : Bool) (x c : List Char) (hc : PlainElem c) :
    cleanElems r (x ++ '/' :: c) = cleanElems r x ++ [c] := by
  rw [cleanElems_append, splitSlash_of_not_mem hc.2.2.2]
  simp [cleanElems, cleanStep, hc.1, hc.2.1, hc.2.2.1]

theorem splitSlash_joinSlash_snoc (r : Bool) (x c : List Char) (hc : '/' ∉ c) :
    splitSlash (joinSlash (cleanElems r x ++ [c])) = cleanElems r x ++ [c] := by
  apply splitSlash_joinSlash _ (by simp)
  intro e he
  rcases List.mem_append.1 he with he | he
  · exact (cleanElems_mem r x e he).2
  · simp at he; rw [he]; exact hc

theorem getLast_split_cleanChars (x c : List Char) (hc : PlainElem c) :
    (splitSlash (cleanChars (x ++ '/' :: c))).getLast? = some c := by
  unfold cleanChars
  rw [if_neg (by simp)]
  split
  · rw [cleanElems_snoc _ _ _ hc]
    have e : splitSlash ('/' :: joinSlash (cleanElems true x ++ [c]))
        = [] :: splitSlash (joinSlash (cleanElems true x ++ [c])) := by simp [splitSlash]
    rw [e, splitSlash_joinSlash_snoc true x c hc.2.2.2]
    rw [← List.cons_append]
    exact List.getLast?_concat _
  · rw [cleanElems_snoc _ _ _ hc]
    rw [if_neg (by simp)]
    rw [splitSlash_joinSlash_snoc false x c hc.2.2.2]
    simp

theorem Clean_data (p : String) : (Clean p).data = cleanChars p.data := rfl

theorem Clean_ne_empty (p : String) : Clean p ≠ "" := by
  intro e
  have := congrArg String.data e
  exact cleanChars_ne_nil _ this

theorem data_ne_nil {s : String} (h : s ≠ "") : s.data ≠ [] := by
  intro e
  exact h (String.ext e)

theorem slash_data (x y : String) : (x ++ "/" ++ y).data = x.data ++ '/' :: y.data := by
  simp [String.data_append]

theorem Clean_Clean_append (x y : String) (hx : x ≠ "") :
    Clean (Clean x ++ "/" ++ y) = Clean (x ++ "/" ++ y) := by
  apply String.ext
  rw [Clean_data, Clean_data, slash_data, slash_data, Clean_data]
  exact cleanChars_clean_append _ _ (data_ne_nil hx)

theorem stringsJoin_cons (x : String) (rest : List String) (h : rest ≠ []) :
    stringsJoin (x :: rest) = x ++ "/" ++ stringsJoin rest := by
  cases rest with
  | nil => exact absurd rfl h
  | cons y ys => rfl

theorem Join_cons (x : String) (rest : List String) (hx : x ≠ "") :
    Join (x :: rest) = Clean (stringsJoin (x :: rest)) := by
  simp [Join, List.dropWhile, hx]

theorem Join_empty_cons (rest : List String) : Join ("" :: rest) = Join rest := by
  simp [Join, List.dropWhile]

theorem Join_Join (r a : String) (rest : List String) (ha : a ≠ "") (hrest : rest ≠ []) :
    Join (Join [r, a] :: rest) = Join (r :: a :: rest) := by
  by_cases hr : r = ""
  · subst hr
    rw [Join_empty_cons, Join_empty_cons, Join_cons a [] ha, Join_cons a rest ha,
      Join_cons _ rest (Clean_ne_empty _), stringsJoin_cons _ _ hrest,
      stringsJoin_cons _ _ hrest]
    exact Clean_Clean_append _ _ ha
  · rw [Join_cons r [a] hr, Join_cons r (a :: rest) hr,
      Join_cons _ rest (Clean_ne_empty _), stringsJoin_cons _ _ hrest,
      stringsJoin_cons r (a :: rest) (by simp), stringsJoin_cons a rest hrest,
      stringsJoin_cons r [a] (by simp)]
    have e : stringsJoin [a] = a := rfl
    rw [e, Clean_Clean_append _ _ (by
      intro h
      have := congrArg String.length h
      simp at this
      exact absurd this.1.2 (by decide))]
    simp [String.append_assoc]

theorem Join_ne_empty (r a : String) (ha : a ≠ "") : Join [r, a] ≠ "" := by
  by_cases hr : r = ""
  · subst hr
    rw [Join_empty_cons, Join_cons a [] ha]
    exact Clean_ne_empty _
  · rw [Join_cons r [a] hr]
    exact Clean_ne_empty _

theorem hexDigit_ne_slash (n : Nat) : hexDigit n ≠ '/' := by
  unfold hexDigit
  by_cases h : n < 16
  · interval_cases n <;> decide
  · have : ("0123456789abcdef".data).length ≤ n := by
      simp only [not_lt] at h
      exact h
    rw [List.getD_eq_default _ _ this]
    decide

theorem not_mem_hexEncode (b : Bytes) : '/' ∉ hexEncode b := by
  induction b with
  | nil => simp [hexEncode]
  | cons x xs ih =>
    simp only [hexEncode, List.mem_cons, not_or]
    exact ⟨(hexDigit_ne_slash _).symm, (hexDigit_ne_slash _).symm, ih⟩

theorem plainElem_hex (pubkey : ValidatorPubkey) : PlainElem pubkey.HexWithPrefix.data := by
  refine ⟨by simp [ValidatorPubkey.HexWithPrefix], by simp [ValidatorPubkey.HexWithPrefix],
    by simp [ValidatorPubkey.HexWithPrefix], ?_⟩
  simp only [ValidatorPubkey.HexWithPrefix, List.mem_cons, not_or]
  exact ⟨by decide, by decide, not_mem_hexEncode _⟩

theorem getLast_Join_snoc (x : String) (c : String) (hc : PlainElem c.data) :
    (splitSlash (Clean (x ++ "/" ++ c)).data).getLast? = some c.data := by
  rw [Clean_data, slash_data]
  exact getLast_split_cleanChars _ _ hc

theorem secret_ne_key (keystorePath : String) (pubkey : ValidatorPubkey) :
    (NewLodestarKeystoreManager keystorePath).secretFilePath pubkey
      ≠ (NewLodestarKeystoreManager keystorePath).keyFilePath pubkey := by
  have hd : Join [keystorePath, "lodestar"] ≠ "" := Join_ne_empty _ _ (by decide)
  intro e
  simp only [LodestarKeystoreManager.secretFilePath, LodestarKeystoreManager.keyFilePath,
    NewLodestarKeystoreManager] at e
  rw [Join_cons _ _ hd, Join_cons _ _ hd] at e
  simp only [stringsJoin] at e
  have e1 := getLast_Join_snoc (Join [keystorePath, "lodestar"] ++ "/" ++ "secrets")
    pubkey.HexWithPrefix (plainElem_hex pubkey)
  have e2 := getLast_Join_snoc
    (Join [keystorePath, "lodestar"] ++ "/" ++ "validators" ++ "/" ++ pubkey.HexWithPrefix)
    "voting-keystore.json" (by unfold PlainElem; decide)
  simp only [String.append_assoc] at e e1 e2
  rw [e, e2] at e1
  simp [ValidatorPubkey.HexWithPrefix] at e1

/-! ## Lemmas on places -/

theorem resolve_Clean (s : String) (hs : s ≠ "") : resolve (Clean s) = resolve s := by
  have hd := data_ne_nil hs
  have hh := head_cleanChars s.data hd
  unfold resolve
  simp only [Clean_data]
  by_cases h : s.data.head? = some '/'
  · have h' := hh.2 h
    simp only [h, h', decide_True, cleanElems]
    rw [foldl_split_cleanChars_rooted _ h]
  · have h' : (cleanChars s.data).head? ≠ some '/' := fun e => h (hh.1 e)
    simp only [h, h', decide_False, cleanElems]
    rw [foldl_split_cleanChars_rel _ hd h]

theorem resolve_snoc (x c : String) (hx : x ≠ "") (hc : PlainElem c.data) :
    resolve (x ++ "/" ++ c) = ⟨(resolve x).rooted, (resolve x).elems ++ [c.data]⟩ := by
  have hd := data_ne_nil hx
  have e : (x.data ++ '/' :: c.data).head? = x.data.head? := by
    cases hx' : x.data with
    | nil => exact absurd hx' hd
    | cons a l => simp
  unfold resolve
  simp only [slash_data, e]
  rw [cleanElems_snoc _ _ _ hc]

theorem append_ne_empty (x y : String) (hx : x ≠ "") : x ++ y ≠ "" := by
  intro h
  have := congrArg String.length h
  simp at this
  exact hx (String.ext (List.length_eq_zero.1 this.1))

theorem resolve_Join3 (d a b : String) (hd : d ≠ "") (ha : PlainElem a.data)
    (hb : PlainElem b.data) :
    resolve (Join [d, a, b]) = ⟨(resolve d).rooted, (resolve d).elems ++ [a.data, b.data]⟩ := by
  rw [Join_cons _ _ hd]
  simp only [stringsJoin]
  rw [resolve_Clean _ (append_ne_empty _ _ (append_ne_empty _ _ hd))]
  have e : d ++ "/" ++ (a ++ "/" ++ b) = (d ++ "/" ++ a) ++ "/" ++ b := by
    simp [String.append_assoc]
  rw [e, resolve_snoc _ _ (append_ne_empty _ _ (append_ne_empty _ _ hd)) hb,
    resolve_snoc _ _ hd ha]
  simp

theorem resolve_Join4 (d a b c : String) (hd : d ≠ "") (ha : PlainElem a.data)
    (hb : PlainElem b.data) (hc : PlainElem c.data) :
    resolve (Join [d, a, b, c])
      = ⟨(resolve d).rooted, (resolve d).elems ++ [a.data, b.data, c.data]⟩ := by
  rw [Join_cons _ _ hd]
  simp only [stringsJoin]
  rw [resolve_Clean _ (append_ne_empty _ _ (append_ne_empty _ _ hd))]
  have e : d ++ "/" ++ (a ++ "/" ++ (b ++ "/" ++ c)) = ((d ++ "/" ++ a) ++ "/" ++ b) ++ "/" ++ c := by
    simp [String.append_assoc]
  have h1 : d ++ "/" ++ a ≠ "" := append_ne_empty _ _ (append_ne_empty _ _ hd)
  rw [e, resolve_snoc _ _ (append_ne_empty _ _ (append_ne_empty _ _ h1)) hc,
    resolve_snoc _ _ h1 hb, resolve_snoc _ _ hd ha]
  simp

theorem keystoreDir_ne_empty (keystorePath : String) :
    (NewLodestarKeystoreManager keystorePath).keystoreDir ≠ "" :=
  Join_ne_empty _ _ (by decide)

theorem resolve_secretFilePath (keystorePath : String) (pubkey : ValidatorPubkey) :
    resolve ((NewLodestarKeystoreManager keystorePath).secretFilePath pubkey)
      = ⟨(resolve (NewLodestarKeystoreManager keystorePath).keystoreDir).rooted,
          (resolve (NewLodestarKeystoreManager keystorePath).keystoreDir).elems
            ++ ["secrets".data, pubkey.HexWithPrefix.data]⟩ :=
  resolve_Join3 _ "secrets" _ (keystoreDir_ne_empty keystorePath)
    (by unfold PlainElem; decide) (plainElem_hex pubkey)

theorem resolve_keyFilePath (keystorePath : String) (pubkey : ValidatorPubkey) :
    resolve ((NewLodestarKeystoreManager keystorePath).keyFilePath pubkey)
      = ⟨(resolve (NewLodestarKeystoreManager keystorePath).keystoreDir).rooted,
          (resolve (NewLodestarKeystoreManager keystorePath).keystoreDir).elems
            ++ ["validators".data, pubkey.HexWithPrefix.data, "voting-keystore.json".data]⟩ :=
  resolve_Join4 _ "validators" _ "voting-keystore.json" (keystoreDir_ne_empty keystorePath)
    (by unfold PlainElem; decide) (plainElem_hex pubkey) (by unfold PlainElem; decide)

theorem secretLoc_ne_keyLoc (keystorePath : String) (pubkey : ValidatorPubkey) :
    resolve ((NewLodestarKeystoreManager keystorePath).secretFilePath pubkey)
      ≠ resolve ((NewLodestarKeystoreManager keystorePath).keyFilePath pubkey) := by
  rw [resolve_secretFilePath, resolve_keyFilePath]
  intro h
  have := congrArg (fun l => l.elems.length) h
  simp at this

/-! ## Lemmas on the file system -/

theorem content_congr {fs fs1 : FS} {q : Loc} (h : fs1.entry q = fs.entry q) :
    fs1.content q = fs.content q := by
  simp [FS.content, h]

theorem content_of_entry {fs : FS} {q : Loc} {data : String}
    (h : fs.entry q = some (.file data)) : fs.content q = some data := by
  simp [FS.content, h]

theorem reach_ok_iff (fs : FS) (p : String) :
    fs.reach p = .ok ↔ p ≠ "" ∧ ∀ q ∈ passes p, fs.entry q = some .dir := by
  unfold FS.reach
  by_cases hp : p = ""
  · simp [hp]
  · rw [if_neg hp]
    cases hfind : (passes p).find? (fun q => decide (fs.entry q ≠ some .dir)) with
    | none =>
      rw [List.find?_eq_none] at hfind
      simp only [true_and, hp, ne_eq, not_false_eq_true, true_iff]
      intro q hq
      simpa using hfind q hq
    | some q =>
      have hq1 := List.mem_of_find?_eq_some hfind
      have hq2 := List.find?_some hfind
      simp only [hp, ne_eq, not_false_eq_true, true_and]
      constructor
      · intro h
        split at h <;> cases h
      · intro h
        exact absurd (h q hq1) (by simpa using hq2)

theorem reach_ok_mono {fs fs1 : FS} {p : String} (h : fs.reach p = .ok)
    (hd : ∀ q, fs.entry q = some .dir → fs1.entry q = some .dir) : fs1.reach p = .ok := by
  rw [reach_ok_iff] at h ⊢
  exact ⟨h.1, fun q hq => hd q (h.2 q hq)⟩

theorem entry_mk (f : Loc → Option Node) (flt : Loc → Bool) (q : Loc) :
    FS.entry ⟨f, flt⟩ q = if q.elems.all (fun e => e = ['.', '.']) then some .dir else f q :=
  rfl

theorem entry_eq (fs : FS) (q : Loc) :
    fs.entry q = if q.elems.all (fun e => e = ['.', '.']) then some .dir else fs.node q :=
  rfl

theorem entry_mkdir (fs : FS) (chain : List Loc) (q : Loc) :
    FS.entry ⟨fun q => if q ∈ chain ∧ fs.entry q = none then some .dir else fs.node q,
        fs.fault⟩ q
      = if q ∈ chain ∧ fs.entry q = none then some .dir else fs.entry q := by
  rw [entry_mk (fun q => if q ∈ chain ∧ fs.entry q = none then some .dir else fs.node q)
    fs.fault q]
  by_cases ha : (q.elems.all (fun e => decide (e = ['.', '.']))) = true
  · have he : fs.entry q = some .dir := by rw [entry_eq, if_pos ha]
    rw [if_pos ha, he]
    simp
  · have he : fs.entry q = fs.node q := by rw [entry_eq, if_neg ha]
    rw [if_neg ha, he]

theorem MkdirAll_ok {fs fs1 : FS} {d : String} (h : fs.MkdirAll d = .ok fs1) :
    fs1.fault = fs.fault ∧ (∀ q, fs1.content q = fs.content q)
      ∧ ∀ q, fs.entry q ≠ none → fs1.entry q = fs.entry q := by
  unfold FS.MkdirAll at h
  split at h
  · cases h
  · split at h
    · cases h
    · injection h with h
      subst h
      have key : ∀ q, fs.entry q ≠ none →
          FS.entry ⟨fun q => if q ∈ passes d ++ [resolve d] ∧ fs.entry q = none
            then some .dir else fs.node q, fs.fault⟩ q = fs.entry q := by
        intro q hq
        rw [entry_mkdir, if_neg (fun hh => hq hh.2)]
      refine ⟨rfl, ?_, key⟩
      intro q
      by_cases hq : fs.entry q = none
      · have h1 : fs.content q = none := by simp [FS.content, hq]
        rw [h1]
        unfold FS.content
        rw [entry_mkdir]
        split <;> simp_all
      · exact content_congr (key q hq)

theorem MkdirAll_reach {fs fs1 : FS} {d : String} (h : fs.MkdirAll d = .ok fs1) {p : String}
    (hp : fs.reach p = .ok) : fs1.reach p = .ok :=
  reach_ok_mono hp (fun q hq => by
    rw [(MkdirAll_ok h).2.2 q (by rw [hq]; simp)]
    exact hq)

theorem WriteFile_ok {fs fs1 : FS} {p data : String} (h : fs.WriteFile p data = .ok fs1) :
    fs1.fault = fs.fault ∧ fs.fault (resolve p) = false ∧ fs1.reach p = .ok
      ∧ fs1.entry (resolve p) = some (.file data)
      ∧ (∀ q, q ≠ resolve p → fs1.entry q = fs.entry q)
      ∧ fs.entry (resolve p) ≠ some .dir := by
  unfold FS.WriteFile at h
  split at h
  · cases h
  · rename_i hf
    split at h
    · cases h
    · cases h
    · rename_i hr
      split at h
      · cases h
      · rename_i hd
        injection h with h
        subst h
        have hall : ¬ ((resolve p).elems.all (fun e => decide (e = ['.', '.']))) = true := by
          intro he
          exact hd (by rw [entry_eq, if_pos he])
        have hother : ∀ q, q ≠ resolve p →
            FS.entry ⟨fun q => if q = resolve p then some (.file data) else fs.node q,
              fs.fault⟩ q = fs.entry q := by
          intro q hq
          rw [entry_mk, entry_eq, if_neg hq]
        refine ⟨rfl, by simpa using hf, ?_, ?_, hother, hd⟩
        · apply reach_ok_mono hr
          intro q hq
          rw [hother q (by intro e; rw [e] at hq; exact hd hq)]
          exact hq
        · rw [entry_mk, if_neg hall, if_pos rfl]

theorem write_reach {fs fs1 : FS} {k : Loc} {p : String} (hp : fs.reach p = .ok)
    (hk : fs.entry k ≠ some .dir) (ho : ∀ q, q ≠ k → fs1.entry q = fs.entry q) :
    fs1.reach p = .ok :=
  reach_ok_mono hp (fun q hq => by
    rw [ho q (by intro e; rw [e] at hq; exact hk hq)]
    exact hq)

theorem Stat_file {fs : FS} {p data : String} (hf : fs.fault (resolve p) = false)
    (hr : fs.reach p = .ok) (hn : fs.entry (resolve p) = some (.file data)) :
    fs.Stat p = .ok := by
  simp [FS.Stat, hf, hr, hn]

theorem ReadFile_file {fs : FS} {p data : String} (hf : fs.fault (resolve p) = false)
    (hr : fs.reach p = .ok) (hn : fs.entry (resolve p) = some (.file data)) :
    fs.ReadFile p = .ok data := by
  simp [FS.ReadFile, hf, hr, hn]

theorem Stat_absent {fs : FS} {p : String} (hf : fs.fault (resolve p) = false)
    (hr : fs.reach p ≠ .notDir) (hn : fs.entry (resolve p) = none) :
    fs.Stat p = .notExist := by
  unfold FS.Stat
  rw [hf]
  cases h : fs.reach p with
  | notDir => exact absurd h hr
  | noEnt => simp
  | ok => simp [hn]

theorem Stat_notDir {fs : FS} {p : String} (hf : fs.fault (resolve p) = false)
    (hr : fs.reach p = .notDir) :
    fs.Stat p = .failed ("stat " ++ p ++ ": not a directory") := by
  simp [FS.Stat, hf, hr]

theorem Stat_fault {fs : FS} {p : String} (hf : fs.fault (resolve p) = true) :
    fs.Stat p = .failed ("stat " ++ p ++ ": permission denied") := by
  simp [FS.Stat, hf]

theorem failed_iff {α : Type} (r : Except Error α) : failed r = true ↔ ∃ err, r = .error err := by
  cases r <;> simp [failed]

theorem MkdirAll_error_mono {fs fs2 : FS} {d : String} {err : Error}
    (h : fs.MkdirAll d = .error err) (hf : fs2.fault = fs.fault)
    (hc : ∀ q, (fs.content q).isSome → (fs2.content q).isSome) :
    ∃ err2, fs2.MkdirAll d = .error err2 := by
  unfold FS.MkdirAll at h ⊢
  rw [hf]
  split at h
  · rename_i h1
    rw [if_pos h1]
    exact ⟨_, rfl⟩
  · rename_i h1
    rw [if_neg h1]
    split at h
    · rename_i q hq
      have hq1 := List.mem_of_find?_eq_some hq
      have hq2 := List.find?_some hq
      cases h2 : (passes d ++ [resolve d]).find? (fun q => (fs2.content q).isSome) with
      | some q2 => exact ⟨_, rfl⟩
      | none =>
        rw [List.find?_eq_none] at h2
        exact absurd (hc q hq2) (by simpa using h2 q hq1)
    · cases h

/-- What a successful `StoreValidatorKey` has done. -/
theorem Store_ok {Key Blob : Type} (lib : Libs Key Blob) (ks : LodestarKeystoreManager)
    (password : Except Error String) (id : UUID) (fs fs4 : FS) (key : Key)
    (derivationPath : String)
    (hne : resolve (ks.secretFilePath (lib.PublicKey key))
      ≠ resolve (ks.keyFilePath (lib.PublicKey key)))
    (h : ks.StoreValidatorKey lib password id fs key derivationPath = (fs4, none)) :
    ∃ pw blob keyStoreBytes,
      password = .ok pw ∧ lib.Encrypt (lib.Marshal key) pw = .ok blob
      ∧ lib.jsonMarshal ⟨blob, lib.Version, id, derivationPath, lib.PublicKey key⟩
          = .ok keyStoreBytes
      ∧ (fs4.fault (resolve (ks.secretFilePath (lib.PublicKey key))) = false
        ∧ fs4.reach (ks.secretFilePath (lib.PublicKey key)) = .ok
        ∧ fs4.entry (resolve (ks.secretFilePath (lib.PublicKey key))) = some (.file pw))
      ∧ (fs4.fault (resolve (ks.keyFilePath (lib.PublicKey key))) = false
        ∧ fs4.reach (ks.keyFilePath (lib.PublicKey key)) = .ok
        ∧ fs4.entry (resolve (ks.keyFilePath (lib.PublicKey key)))
            = some (.file keyStoreBytes))
      ∧ ∀ q, q ≠ resolve (ks.secretFilePath (lib.PublicKey key)) →
          q ≠ resolve (ks.keyFilePath (lib.PublicKey key)) → fs4.content q = fs.content q := by
  unfold LodestarKeystoreManager.StoreValidatorKey at h
  simp only at h
  split at h
  · cases h
  · rename_i pw
    split at h
    · cases h
    · rename_i blob hblob
      split at h
      · cases h
      · rename_i bytes hbytes
        split at h
        · cases h
        · rename_i fs1 h1
          split at h
          · cases h
          · rename_i fs2 h2
            split at h
            · cases h
            · rename_i fs3 h3
              split at h
              · cases h
              · rename_i fs4' h4
                injection h with hfs _
                subst hfs
                obtain ⟨f1, c1, _⟩ := MkdirAll_ok h1
                obtain ⟨f2, nf2, r2, n2, o2, _⟩ := WriteFile_ok h2
                obtain ⟨f3, c3, n3⟩ := MkdirAll_ok h3
                obtain ⟨f4, nf4, r4, n4, o4, d4⟩ := WriteFile_ok h4
                have hS3 : fs3.entry (resolve (ks.secretFilePath (lib.PublicKey key)))
                    = some (.file pw) := by
                  rw [n3 _ (by
                    show fs2.entry (resolve (ks.secretFilePath (lib.PublicKey key))) ≠ none
                    rw [show fs2.entry (resolve (ks.secretFilePath (lib.PublicKey key)))
                      = some (.file pw) from n2]
                    simp)]
                  exact n2
                refine ⟨pw, blob, bytes, rfl, hblob, hbytes, ⟨?_, ?_, ?_⟩, ⟨?_, r4, n4⟩, ?_⟩
                · rw [f4, f3, f2]; exact nf2
                · exact write_reach (MkdirAll_reach h3 r2) d4 o4
                · rw [show fs4'.entry (resolve (ks.secretFilePath (lib.PublicKey key)))
                      = fs3.entry (resolve (ks.secretFilePath (lib.PublicKey key)))
                      from o4 _ hne]
                  exact hS3
                · rw [f4]; exact nf4
                · intro q hq1 hq2
                  rw [content_congr (o4 q hq2), c3 q, content_congr (o2 q hq1), c1 q]

/-! ## Claims on the keystore manager -/

/-- C1. Round trip: when the libraries satisfy `Decrypt (Encrypt b p) p = b`,
JSON unmarshal inverts marshal and `BLSPrivateKeyFromBytes` inverts `Marshal`,
then for every keystore root, key, derivation path and initial file system
(whatever files it already holds), if `StoreValidatorKey` returns nil then
`LoadValidatorKey` of the key's public key on the resulting file system
returns a key with the same marshalled bytes and a nil error. -/
theorem C1_store_load_round_trip {Key Blob : Type} (lib : Libs Key Blob)
    (hCrypt : ∀ b p blob, lib.Encrypt b p = .ok blob → lib.Decrypt blob p = .ok b)
    (hJson : ∀ ks s, lib.jsonMarshal ks = .ok s → lib.jsonUnmarshal s = .ok ks)
    (hKey : ∀ k, lib.BLSPrivateKeyFromBytes (lib.Marshal k) = .ok k)
    (keystorePath : String) (password : Except Error String) (id : UUID) (fs fs1 : FS)
    (key : Key) (derivationPath : String)
    (hStore : (NewLodestarKeystoreManager keystorePath).StoreValidatorKey lib password id fs
      key derivationPath = (fs1, none)) :
    ∃ loaded, (NewLodestarKeystoreManager keystorePath).LoadValidatorKey lib fs1
        (lib.PublicKey key) = (some loaded, none)
      ∧ lib.Marshal loaded = lib.Marshal key := by
  obtain ⟨pw, blob, bytes, _, hblob, hbytes, ⟨hf1, hb1, hn1⟩, ⟨hf2, hb2, hn2⟩, _⟩ :=
    Store_ok lib _ password id fs fs1 key derivationPath (secretLoc_ne_keyLoc _ _) hStore
  refine ⟨key, ?_, rfl⟩
  have s1 := Stat_file hf2 hb2 hn2
  have r1 := ReadFile_file hf2 hb2 hn2
  have s2 := Stat_file hf1 hb1 hn1
  have r2 := ReadFile_file hf1 hb1 hn1
  simp only [LodestarKeystoreManager.secretFilePath, LodestarKeystoreManager.keyFilePath]
    at s1 r1 s2 r2
  unfold LodestarKeystoreManager.LoadValidatorKey
  simp only [s1, r1, s2, r2, hJson _ _ hbytes, hCrypt _ _ _ hblob, hKey]
  simp

/-- C2. Verification postcondition: whenever `LoadValidatorKey` returns a key
with a nil error, the public key derived from that key equals the requested
public key; the `pubkey` field of the record in the keystore file plays no
part: the same key is returned when that field is changed in any way. -/
theorem C2_loaded_key_matches_request {Key Blob : Type} (lib : Libs Key Blob)
    (ks : LodestarKeystoreManager) (fs : FS) (pubkey : ValidatorPubkey) (key : Key)
    (h : ks.LoadValidatorKey lib fs pubkey = (some key, none)) :
    lib.PublicKey key = pubkey
    ∧ ∀ g : ValidatorPubkey → ValidatorPubkey,
        ks.LoadValidatorKey (lib.withRecordPubkey g) fs pubkey = (some key, none) := by
  unfold LodestarKeystoreManager.LoadValidatorKey at h ⊢
  simp only [Libs.withRecordPubkey] at h ⊢
  cases h1 : fs.Stat (Join [ks.keystoreDir, ks.validatorsDir, pubkey.HexWithPrefix,
      ks.keyFileName]) with
  | notExist => rw [h1] at h; cases h
  | failed e => rw [h1] at h; cases h
  | ok =>
    rw [h1] at h
    simp only at h ⊢
    cases h2 : fs.ReadFile (Join [ks.keystoreDir, ks.validatorsDir, pubkey.HexWithPrefix,
        ks.keyFileName]) with
    | error e => rw [h2] at h; cases h
    | ok content =>
      rw [h2] at h
      simp only at h ⊢
      cases h3 : lib.jsonUnmarshal content with
      | error e => rw [h3] at h; cases h
      | ok record =>
        rw [h3] at h
        simp only at h ⊢
        cases h4 : fs.Stat (Join [ks.keystoreDir, ks.secretsDir, pubkey.HexWithPrefix]) with
        | notExist => rw [h4] at h; cases h
        | failed e => rw [h4] at h; cases h
        | ok =>
          rw [h4] at h
          simp only at h ⊢
          cases h5 : fs.ReadFile (Join [ks.keystoreDir, ks.secretsDir,
              pubkey.HexWithPrefix]) with
          | error e => rw [h5] at h; cases h
          | ok password =>
            rw [h5] at h
            simp only at h ⊢
            cases h6 : lib.Decrypt record.Crypto password with
            | error e => rw [h6] at h; cases h
            | ok decrypted =>
              rw [h6] at h
              simp only at h ⊢
              cases h7 : lib.BLSPrivateKeyFromBytes decrypted with
              | error e => rw [h7] at h; cases h
              | ok privateKey =>
                rw [h7] at h
                simp only at h ⊢
                by_cases h8 : lib.PublicKey privateKey = pubkey
                · rw [if_neg (by simpa using h8)] at h ⊢
                  injection h with hk _
                  injection hk with hk
                  subst hk
                  exact ⟨h8, fun _ => rfl⟩
                · rw [if_pos (by simpa using h8)] at h
                  cases h

/-- C3. Pubkey mismatch detection: for distinct public keys `A` and `B`, when
the files at `B`'s key file path and secret file path are a keystore record
and a password that decrypt to a private key of `A`, `LoadValidatorKey B`
returns a nil key and an error whose message contains the hex-with-prefix
forms of both `B` and `A`. -/
theorem C3_pubkey_mismatch_detected {Key Blob : Type} (lib : Libs Key Blob)
    (ks : LodestarKeystoreManager) (fs : FS) (A B : ValidatorPubkey)
    (content password : String) (record : ValidatorKeystore Blob) (decrypted : Bytes)
    (key : Key) (hAB : A ≠ B)
    (hStatKey : fs.Stat (ks.keyFilePath B) = .ok)
    (hReadKey : fs.ReadFile (ks.keyFilePath B) = .ok content)
    (hJson : lib.jsonUnmarshal content = .ok record)
    (hStatSecret : fs.Stat (ks.secretFilePath B) = .ok)
    (hReadSecret : fs.ReadFile (ks.secretFilePath B) = .ok password)
    (hDecrypt : lib.Decrypt record.Crypto password = .ok decrypted)
    (hKey : lib.BLSPrivateKeyFromBytes decrypted = .ok key)
    (hA : lib.PublicKey key = A) :
    ∃ msg, ks.LoadValidatorKey lib fs B = (none, some msg)
      ∧ B.HexWithPrefix.data <:+: msg.data ∧ A.HexWithPrefix.data <:+: msg.data := by
  simp only [LodestarKeystoreManager.secretFilePath, LodestarKeystoreManager.keyFilePath]
    at hStatKey hReadKey hStatSecret hReadSecret
  unfold LodestarKeystoreManager.LoadValidatorKey
  simp only [hStatKey, hReadKey, hJson, hStatSecret, hReadSecret, hDecrypt, hKey, hA]
  rw [if_pos (by simpa using hAB)]
  refine ⟨_, rfl, ?_, ?_⟩
  · refine ⟨("private keystore file "
      ++ Join [ks.keystoreDir, ks.validatorsDir, B.HexWithPrefix, ks.keyFileName]
      ++ " claims to be for validator ").data,
      (" but it's for validator " ++ A.HexWithPrefix).data, ?_⟩
    simp [String.data_append]
  · refine ⟨("private keystore file "
      ++ Join [ks.keystoreDir, ks.validatorsDir, B.HexWithPrefix, ks.keyFileName]
      ++ " claims to be for validator " ++ B.HexWithPrefix
      ++ " but it's for validator ").data, [], ?_⟩
    simp [String.data_append]

/-- What `LoadValidatorKey` returns when `os.Stat` fails on the key file. -/
theorem Load_of_key_stat_failed {Key Blob : Type} (lib : Libs Key Blob)
    (ks : LodestarKeystoreManager) (fs : FS) (pubkey : ValidatorPubkey) (err : Error)
    (h : fs.Stat (ks.keyFilePath pubkey) = .failed err) :
    ks.LoadValidatorKey lib fs pubkey
      = (none, some ("couldn't open the Lodestar keystore for pubkey "
          ++ pubkey.HexWithPrefix ++ ": " ++ err)) := by
  simp only [LodestarKeystoreManager.keyFilePath] at h
  unfold LodestarKeystoreManager.LoadValidatorKey
  simp only [h]

/-- C4, as stated, fails: in a file system where `/data/lodestar/validators` is
a regular file, no file exists at the key file path, and `LoadValidatorKey`
returns an error, because `os.Stat` fails with "not a directory", which is not
a not-exist error. -/
theorem C4_counterexample :
    blockedFS.entry (resolve (Join [demoManager.GetKeystoreDir, "validators",
        (demoLib.PublicKey 7).HexWithPrefix, "voting-keystore.json"])) = none
    ∧ demoManager.LoadValidatorKey demoLib blockedFS (demoLib.PublicKey 7)
      = (none, some ("couldn't open the Lodestar keystore for pubkey "
          ++ (demoLib.PublicKey 7).HexWithPrefix ++ ": stat "
          ++ demoManager.keyFilePath (demoLib.PublicKey 7) ++ ": not a directory")) := by
  decide

/-- C4, amended. Absence is not an error: in every state where no file exists
at `<keystoreDir>/validators/<pubkey hex>/voting-keystore.json`, if the walk
along the path does not stop at a regular file and the path is accessible,
`os.Stat` reports that it does not exist and `LoadValidatorKey` returns a nil
key and a nil error, whatever is at the secret file path; if the walk stops at
a regular file (an element before the last is one) or the path is not
accessible, `os.Stat` fails otherwise and `LoadValidatorKey` returns a nil key
and a non-nil error. -/
theorem C4_absent_keystore_is_not_an_error {Key Blob : Type} (lib : Libs Key Blob)
    (keystorePath : String) (fs : FS) (pubkey : ValidatorPubkey)
    (hNone : fs.entry (resolve (Join [(NewLodestarKeystoreManager keystorePath).GetKeystoreDir,
      "validators", pubkey.HexWithPrefix, "voting-keystore.json"])) = none) :
    (fs.fault (resolve (Join [(NewLodestarKeystoreManager keystorePath).GetKeystoreDir,
          "validators", pubkey.HexWithPrefix, "voting-keystore.json"])) = false →
      fs.reach (Join [(NewLodestarKeystoreManager keystorePath).GetKeystoreDir,
          "validators", pubkey.HexWithPrefix, "voting-keystore.json"]) ≠ Reach.notDir →
      fs.Stat (Join [(NewLodestarKeystoreManager keystorePath).GetKeystoreDir,
          "validators", pubkey.HexWithPrefix, "voting-keystore.json"]) = .notExist
      ∧ (NewLodestarKeystoreManager keystorePath).LoadValidatorKey lib fs pubkey
          = (none, none))
    ∧ (fs.fault (resolve (Join [(NewLodestarKeystoreManager keystorePath).GetKeystoreDir,
          "validators", pubkey.HexWithPrefix, "voting-keystore.json"])) = true
        ∨ fs.reach (Join [(NewLodestarKeystoreManager keystorePath).GetKeystoreDir,
          "validators", pubkey.HexWithPrefix, "voting-keystore.json"]) = Reach.notDir →
      ∃ err, fs.Stat (Join [(NewLodestarKeystoreManager keystorePath).GetKeystoreDir,
          "validators", pubkey.HexWithPrefix, "voting-keystore.json"]) = .failed err
        ∧ (NewLodestarKeystoreManager keystorePath).LoadValidatorKey lib fs pubkey
          = (none, some ("couldn't open the Lodestar keystore for pubkey "
              ++ pubkey.HexWithPrefix ++ ": " ++ err))) := by
  have hp : Join [(NewLodestarKeystoreManager keystorePath).GetKeystoreDir,
      "validators", pubkey.HexWithPrefix, "voting-keystore.json"]
      = (NewLodestarKeystoreManager keystorePath).keyFilePath pubkey := rfl
  rw [hp] at hNone ⊢
  refine ⟨?_, ?_⟩
  · intro hf hb
    have hs := Stat_absent hf hb hNone
    refine ⟨hs, ?_⟩
    simp only [LodestarKeystoreManager.keyFilePath] at hs
    unfold LodestarKeystoreManager.LoadValidatorKey
    simp only [hs]
  · intro h
    by_cases hf : fs.fault
        (resolve ((NewLodestarKeystoreManager keystorePath).keyFilePath pubkey)) = true
    · exact ⟨_, Stat_fault hf, Load_of_key_stat_failed lib _ fs pubkey _ (Stat_fault hf)⟩
    · have hf' : fs.fault
          (resolve ((NewLodestarKeystoreManager keystorePath).keyFilePath pubkey)) = false := by
        simpa using hf
      have hb := h.resolve_left hf
      exact ⟨_, Stat_notDir hf' hb,
        Load_of_key_stat_failed lib _ fs pubkey _ (Stat_notDir hf' hb)⟩

/-- C5, as stated, fails, in two ways.  With a keystore file that is not a
keystore record and no secret file, `LoadValidatorKey` returns an error,
because the keystore file is read and deserialized before the secret file is
looked for.  With a good keystore file and `/data/lodestar/secrets` a regular
file, no file exists at the secret file path, and `LoadValidatorKey` returns an
error, because `os.Stat` fails with "not a directory". -/
theorem C5_counterexample :
    (brokenKeystoreFS.Stat (demoManager.keyFilePath (demoLib.PublicKey 7)) = .ok
      ∧ brokenKeystoreFS.entry (resolve (demoManager.secretFilePath (demoLib.PublicKey 7)))
          = none
      ∧ demoManager.LoadValidatorKey demoLib brokenKeystoreFS (demoLib.PublicKey 7)
        = (none, some ("error deserializing Lodestar keystore for pubkey "
            ++ (demoLib.PublicKey 7).HexWithPrefix ++ ": invalid character")))
    ∧ (blockedSecretsFS.Stat (demoManager.keyFilePath (demoLib.PublicKey 7)) = .ok
      ∧ blockedSecretsFS.entry (resolve (demoManager.secretFilePath (demoLib.PublicKey 7)))
          = none
      ∧ demoManager.LoadValidatorKey demoLib blockedSecretsFS (demoLib.PublicKey 7)
        = (none, some ("couldn't open the Lodestar secret for pubkey "
            ++ (demoLib.PublicKey 7).HexWithPrefix ++ ": stat "
            ++ demoManager.secretFilePath (demoLib.PublicKey 7) ++ ": not a directory"))) := by
  decide

/-- C5, amended. A keystore without its paired secret is absent: when the
keystore file exists, is read and deserializes, and no file exists at
`<keystoreDir>/secrets/<pubkey hex>`, then if the walk along that path does
not stop at a regular file and the path is accessible, `os.Stat` reports that
it does not exist and `LoadValidatorKey` returns a nil key and a nil error; if
the walk stops at a regular file (an element before the last is one) or the
path is not accessible, `os.Stat` fails otherwise and `LoadValidatorKey`
returns a nil key and a non-nil error. -/
theorem C5_keystore_without_secret_is_absent {Key Blob : Type} (lib : Libs Key Blob)
    (keystorePath : String) (fs : FS) (pubkey : ValidatorPubkey) (content : String)
    (record : ValidatorKeystore Blob)
    (hStatKey : fs.Stat ((NewLodestarKeystoreManager keystorePath).keyFilePath pubkey) = .ok)
    (hReadKey : fs.ReadFile ((NewLodestarKeystoreManager keystorePath).keyFilePath pubkey)
      = .ok content)
    (hJson : lib.jsonUnmarshal content = .ok record)
    (hNone : fs.entry (resolve (Join [(NewLodestarKeystoreManager keystorePath).GetKeystoreDir,
      "secrets", pubkey.HexWithPrefix])) = none) :
    (fs.fault (resolve (Join [(NewLodestarKeystoreManager keystorePath).GetKeystoreDir,
          "secrets", pubkey.HexWithPrefix])) = false →
      fs.reach (Join [(NewLodestarKeystoreManager keystorePath).GetKeystoreDir,
          "secrets", pubkey.HexWithPrefix]) ≠ Reach.notDir →
      fs.Stat (Join [(NewLodestarKeystoreManager keystorePath).GetKeystoreDir,
          "secrets", pubkey.HexWithPrefix]) = .notExist
      ∧ (NewLodestarKeystoreManager keystorePath).LoadValidatorKey lib fs pubkey
          = (none, none))
    ∧ (fs.fault (resolve (Join [(NewLodestarKeystoreManager keystorePath).GetKeystoreDir,
          "secrets", pubkey.HexWithPrefix])) = true
        ∨ fs.reach (Join [(NewLodestarKeystoreManager keystorePath).GetKeystoreDir,
          "secrets", pubkey.HexWithPrefix]) = Reach.notDir →
      ∃ err, fs.Stat (Join [(NewLodestarKeystoreManager keystorePath).GetKeystoreDir,
          "secrets", pubkey.HexWithPrefix]) = .failed err
        ∧ (NewLodestarKeystoreManager keystorePath).LoadValidatorKey lib fs pubkey
          = (none, some ("couldn't open the Lodestar secret for pubkey "
              ++ pubkey.HexWithPrefix ++ ": " ++ err))) := by
  have hp : Join [(NewLodestarKeystoreManager keystorePath).GetKeystoreDir,
      "secrets", pubkey.HexWithPrefix]
      = (NewLodestarKeystoreManager keystorePath).secretFilePath pubkey := rfl
  rw [hp] at hNone ⊢
  have hload : ∀ r, fs.Stat ((NewLodestarKeystoreManager keystorePath).secretFilePath pubkey)
      = r → (NewLodestarKeystoreManager keystorePath).LoadValidatorKey lib fs pubkey
        = match r with
          | .notExist => (none, none)
          | .failed err => (none, some ("couldn't open the Lodestar secret for pubkey "
              ++ pubkey.HexWithPrefix ++ ": " ++ err))
          | .ok => (NewLodestarKeystoreManager keystorePath).LoadValidatorKey lib fs pubkey := by
    intro r hr
    simp only [LodestarKeystoreManager.keyFilePath, LodestarKeystoreManager.secretFilePath]
      at hStatKey hReadKey hr
    cases r with
    | ok => rfl
    | notExist =>
      unfold LodestarKeystoreManager.LoadValidatorKey
      simp only [hStatKey, hReadKey, hJson, hr]
    | failed err =>
      unfold LodestarKeystoreManager.LoadValidatorKey
      simp only [hStatKey, hReadKey, hJson, hr]
  refine ⟨?_, ?_⟩
  · intro hf hb
    have hs := Stat_absent hf hb hNone
    exact ⟨hs, hload _ hs⟩
  · intro h
    by_cases hf : fs.fault
        (resolve ((NewLodestarKeystoreManager keystorePath).secretFilePath pubkey)) = true
    · exact ⟨_, Stat_fault hf, hload _ (Stat_fault hf)⟩
    · have hf' : fs.fault
          (resolve ((NewLodestarKeystoreManager keystorePath).secretFilePath pubkey))
            = false := by
        simpa using hf
      have hb := h.resolve_left hf
      exact ⟨_, Stat_notDir hf' hb, hload _ (Stat_notDir hf' hb)⟩

theorem Load_congr {Key Blob : Type} (lib : Libs Key Blob) (ks : LodestarKeystoreManager)
    (fsa fsb : FS) (pubkey : ValidatorPubkey)
    (hk : fsa.Stat (ks.keyFilePath pubkey) = fsb.Stat (ks.keyFilePath pubkey)
      ∧ fsa.ReadFile (ks.keyFilePath pubkey) = fsb.ReadFile (ks.keyFilePath pubkey))
    (hs : fsa.Stat (ks.secretFilePath pubkey) = fsb.Stat (ks.secretFilePath pubkey)
      ∧ fsa.ReadFile (ks.secretFilePath pubkey) = fsb.ReadFile (ks.secretFilePath pubkey)) :
    ks.LoadValidatorKey lib fsa pubkey = ks.LoadValidatorKey lib fsb pubkey := by
  simp only [LodestarKeystoreManager.secretFilePath, LodestarKeystoreManager.keyFilePath]
    at hk hs
  unfold LodestarKeystoreManager.LoadValidatorKey
  simp only [hk.1, hk.2, hs.1, hs.2]

theorem secretFilePath_New (keystorePath : String) (pubkey : ValidatorPubkey) :
    (NewLodestarKeystoreManager keystorePath).secretFilePath pubkey
      = Join [keystorePath, "lodestar", "secrets", pubkey.HexWithPrefix] :=
  Join_Join keystorePath "lodestar" ["secrets", pubkey.HexWithPrefix] (by decide) (by simp)

theorem keyFilePath_New (keystorePath : String) (pubkey : ValidatorPubkey) :
    (NewLodestarKeystoreManager keystorePath).keyFilePath pubkey
      = Join [keystorePath, "lodestar", "validators", pubkey.HexWithPrefix,
          "voting-keystore.json"] :=
  Join_Join keystorePath "lodestar" ["validators", pubkey.HexWithPrefix,
    "voting-keystore.json"] (by decide) (by simp)

/-- What `LoadValidatorKey` returns when both files are there and read. -/
theorem Load_eq_decode {Key Blob : Type} (lib : Libs Key Blob) (ks : LodestarKeystoreManager)
    (fs : FS) (pubkey : ValidatorPubkey) (keyStoreBytes password : String)
    (hStatKey : fs.Stat (ks.keyFilePath pubkey) = .ok)
    (hReadKey : fs.ReadFile (ks.keyFilePath pubkey) = .ok keyStoreBytes)
    (hStatSecret : fs.Stat (ks.secretFilePath pubkey) = .ok)
    (hReadSecret : fs.ReadFile (ks.secretFilePath pubkey) = .ok password) :
    ks.LoadValidatorKey lib fs pubkey
      = decodeValidatorKey lib (ks.keyFilePath pubkey) pubkey keyStoreBytes password := by
  simp only [LodestarKeystoreManager.secretFilePath, LodestarKeystoreManager.keyFilePath]
    at hStatKey hReadKey hStatSecret hReadSecret ⊢
  unfold LodestarKeystoreManager.LoadValidatorKey decodeValidatorKey
  simp only [hStatKey, hReadKey, hStatSecret, hReadSecret]

/-- C6. On-disk layout: `GetKeystoreDir` of `NewLodestarKeystoreManager r` is
`Join(r, "lodestar")`; a successful `StoreValidatorKey` leaves the password at
`Join(r, "lodestar", "secrets", h)` and the serialized keystore record at
`Join(r, "lodestar", "validators", h, "voting-keystore.json")`, where `h` is the
hex-with-prefix form of the key's public key, and the content of every other
file is unchanged.  `LoadValidatorKey` reads from exactly these two paths: when
both files are there its result is what decoding the content of the first with
the content of the second as password gives (so it is after the store), and
its result is the same in two file systems that agree on these two paths. -/
theorem C6_on_disk_layout {Key Blob : Type} (lib : Libs Key Blob) (keystorePath : String)
    (password : Except Error String) (id : UUID) (fs fs1 : FS) (key : Key)
    (derivationPath : String)
    (hStore : (NewLodestarKeystoreManager keystorePath).StoreValidatorKey lib password id fs
      key derivationPath = (fs1, none)) :
    (NewLodestarKeystoreManager keystorePath).GetKeystoreDir = Join [keystorePath, "lodestar"]
    ∧ (∃ pw blob keyStoreBytes,
        password = .ok pw ∧ lib.Encrypt (lib.Marshal key) pw = .ok blob
        ∧ lib.jsonMarshal ⟨blob, lib.Version, id, derivationPath, lib.PublicKey key⟩
            = .ok keyStoreBytes
        ∧ fs1.fileAt (Join [keystorePath, "lodestar", "secrets",
            (lib.PublicKey key).HexWithPrefix]) = some pw
        ∧ fs1.fileAt (Join [keystorePath, "lodestar", "validators",
            (lib.PublicKey key).HexWithPrefix, "voting-keystore.json"]) = some keyStoreBytes
        ∧ (∀ q : Loc, q ≠ resolve (Join [keystorePath, "lodestar", "secrets",
              (lib.PublicKey key).HexWithPrefix]) →
            q ≠ resolve (Join [keystorePath, "lodestar", "validators",
              (lib.PublicKey key).HexWithPrefix, "voting-keystore.json"]) →
            fs1.content q = fs.content q)
        ∧ (NewLodestarKeystoreManager keystorePath).LoadValidatorKey lib fs1
            (lib.PublicKey key)
          = decodeValidatorKey lib (Join [keystorePath, "lodestar", "validators",
              (lib.PublicKey key).HexWithPrefix, "voting-keystore.json"])
              (lib.PublicKey key) keyStoreBytes pw)
    ∧ (∀ (fsa : FS) (pubkey : ValidatorPubkey) (keyStoreBytes pw : String),
        fsa.Stat (Join [keystorePath, "lodestar", "validators", pubkey.HexWithPrefix,
          "voting-keystore.json"]) = .ok →
        fsa.ReadFile (Join [keystorePath, "lodestar", "validators", pubkey.HexWithPrefix,
          "voting-keystore.json"]) = .ok keyStoreBytes →
        fsa.Stat (Join [keystorePath, "lodestar", "secrets", pubkey.HexWithPrefix]) = .ok →
        fsa.ReadFile (Join [keystorePath, "lodestar", "secrets", pubkey.HexWithPrefix])
          = .ok pw →
        (NewLodestarKeystoreManager keystorePath).LoadValidatorKey lib fsa pubkey
          = decodeValidatorKey lib (Join [keystorePath, "lodestar", "validators",
              pubkey.HexWithPrefix, "voting-keystore.json"]) pubkey keyStoreBytes pw)
    ∧ ∀ (fsa fsb : FS) (pubkey : ValidatorPubkey),
        (∀ q, q = Join [keystorePath, "lodestar", "secrets", pubkey.HexWithPrefix]
            ∨ q = Join [keystorePath, "lodestar", "validators", pubkey.HexWithPrefix,
                "voting-keystore.json"] →
          fsa.Stat q = fsb.Stat q ∧ fsa.ReadFile q = fsb.ReadFile q) →
        (NewLodestarKeystoreManager keystorePath).LoadValidatorKey lib fsa pubkey
          = (NewLodestarKeystoreManager keystorePath).LoadValidatorKey lib fsb pubkey := by
  refine ⟨rfl, ?_, ?_, ?_⟩
  · obtain ⟨pw, blob, bytes, hp, hblob, hbytes, ⟨hf1, hb1, hn1⟩, ⟨hf2, hb2, hn2⟩, hrest⟩ :=
      Store_ok lib _ password id fs fs1 key derivationPath (secretLoc_ne_keyLoc _ _) hStore
    have hload := Load_eq_decode lib (NewLodestarKeystoreManager keystorePath) fs1
      (lib.PublicKey key) bytes pw (Stat_file hf2 hb2 hn2) (ReadFile_file hf2 hb2 hn2)
      (Stat_file hf1 hb1 hn1) (ReadFile_file hf1 hb1 hn1)
    rw [secretFilePath_New] at hn1 hrest
    rw [keyFilePath_New] at hn2 hrest hload
    exact ⟨pw, blob, bytes, hp, hblob, hbytes, content_of_entry hn1, content_of_entry hn2,
      hrest, hload⟩
  · intro fsa pubkey bytes pw h1 h2 h3 h4
    rw [← keyFilePath_New] at h1 h2 ⊢
    rw [← secretFilePath_New] at h3 h4
    exact Load_eq_decode lib _ fsa pubkey bytes pw h1 h2 h3 h4
  · intro fsa fsb pubkey h
    apply Load_congr
    · rw [keyFilePath_New]; exact h _ (Or.inr rfl)
    · rw [secretFilePath_New]; exact h _ (Or.inl rfl)

theorem Load_withDecrypt {Key Blob : Type} (lib : Libs Key Blob)
    (ks : LodestarKeystoreManager) (fs : FS) (pubkey : ValidatorPubkey)
    (content password : String) (record : ValidatorKeystore Blob)
    (decrypt : Blob → String → Except Error Bytes)
    (hReadKey : fs.ReadFile (ks.keyFilePath pubkey) = .ok content)
    (hJson : lib.jsonUnmarshal content = .ok record)
    (hReadSecret : fs.ReadFile (ks.secretFilePath pubkey) = .ok password)
    (hd : decrypt record.Crypto password = lib.Decrypt record.Crypto password) :
    ks.LoadValidatorKey (lib.withDecrypt decrypt) fs pubkey
      = ks.LoadValidatorKey lib fs pubkey := by
  simp only [LodestarKeystoreManager.secretFilePath, LodestarKeystoreManager.keyFilePath]
    at hReadKey hReadSecret
  unfold LodestarKeystoreManager.LoadValidatorKey
  simp only [Libs.withDecrypt, hReadKey, hReadSecret, hJson, hd]

/-- C7. Wrong-secret and tamper detection: when the keystore file and the
secret file both exist, `LoadValidatorKey` returns a nil key and a non-nil
error if the keystore file fails to deserialize, and also if decrypting the
record's crypto blob with the content of the secret file fails; the password
given to `Decrypt` is exactly that content: the result of the call depends on
`Decrypt` only through its value at the record's blob and that password. -/
theorem C7_wrong_secret_or_tamper_detected {Key Blob : Type} (lib : Libs Key Blob)
    (ks : LodestarKeystoreManager) (fs : FS) (pubkey : ValidatorPubkey) (content : String)
    (hStatKey : fs.Stat (ks.keyFilePath pubkey) = .ok)
    (hStatSecret : fs.Stat (ks.secretFilePath pubkey) = .ok)
    (hReadKey : fs.ReadFile (ks.keyFilePath pubkey) = .ok content) :
    (∀ err, lib.jsonUnmarshal content = .error err →
      ∃ e, ks.LoadValidatorKey lib fs pubkey = (none, some e))
    ∧ ∀ record password, lib.jsonUnmarshal content = .ok record →
        fs.ReadFile (ks.secretFilePath pubkey) = .ok password →
        (∀ err, lib.Decrypt record.Crypto password = .error err →
          ∃ e, ks.LoadValidatorKey lib fs pubkey = (none, some e))
        ∧ ∀ decrypt : Blob → String → Except Error Bytes,
            decrypt record.Crypto password = lib.Decrypt record.Crypto password →
            ks.LoadValidatorKey (lib.withDecrypt decrypt) fs pubkey
              = ks.LoadValidatorKey lib fs pubkey := by
  refine ⟨?_, ?_⟩
  · intro err hj
    simp only [LodestarKeystoreManager.secretFilePath, LodestarKeystoreManager.keyFilePath]
      at hStatKey hStatSecret hReadKey
    unfold LodestarKeystoreManager.LoadValidatorKey
    simp only [hStatKey, hReadKey, hj]
    exact ⟨_, rfl⟩
  · intro record password hj hr
    refine ⟨?_, ?_⟩
    · intro err hd
      simp only [LodestarKeystoreManager.secretFilePath, LodestarKeystoreManager.keyFilePath]
        at hStatKey hStatSecret hReadKey hr
      unfold LodestarKeystoreManager.LoadValidatorKey
      simp only [hStatKey, hReadKey, hj, hStatSecret, hr, hd]
      exact ⟨_, rfl⟩
    · intro decrypt hd
      exact Load_withDecrypt lib ks fs pubkey content password record decrypt hReadKey hj hr hd

/-- C8, as stated, fails: in a file system where `/data/lodestar/validators` is
a regular file, creating the parent directory of the keystore file fails and
`StoreValidatorKey` returns an error, but the secret file, absent before the
call, holds the new password after it. -/
theorem C8_counterexample :
    failed (blockedFS.MkdirAll (Dir (demoManager.keyFilePath (demoLib.PublicKey 7)))) = true
    ∧ (demoManager.StoreValidatorKey demoLib (.ok "pw") [1, 2, 3] blockedFS 7
        "m/12381/3600/0/0/0").2
      = some ("error creating validator key folder: mkdir /data/lodestar/validators: "
          ++ "not a directory")
    ∧ blockedFS.fileAt (demoManager.secretFilePath (demoLib.PublicKey 7)) = none
    ∧ (demoManager.StoreValidatorKey demoLib (.ok "pw") [1, 2, 3] blockedFS 7
        "m/12381/3600/0/0/0").1.fileAt (demoManager.secretFilePath (demoLib.PublicKey 7))
      = some "pw" := by
  decide

/-- C8, amended. `StoreValidatorKey` creates the parent directory of the
secret file, writes the secret file, then creates the parent directory of the
keystore file and then writes the keystore file.  In every initial state in
which creating the parent directory of the keystore file fails, it returns an
error and the content at the keystore file path is the same as before the
call; when the steps before it succeed, that error is the one of creating the
key folder and the secret file holds the new password. -/
theorem C8_store_order_of_effects {Key Blob : Type} (lib : Libs Key Blob)
    (keystorePath : String) (password : Except Error String) (id : UUID) (fs : FS)
    (key : Key) (derivationPath : String)
    (hFail : failed (fs.MkdirAll
      (Dir ((NewLodestarKeystoreManager keystorePath).keyFilePath (lib.PublicKey key))))
      = true) :
    ((NewLodestarKeystoreManager keystorePath).StoreValidatorKey lib password id fs key
        derivationPath).2 ≠ none
    ∧ ((NewLodestarKeystoreManager keystorePath).StoreValidatorKey lib password id fs key
        derivationPath).1.fileAt
          ((NewLodestarKeystoreManager keystorePath).keyFilePath (lib.PublicKey key))
        = fs.fileAt
          ((NewLodestarKeystoreManager keystorePath).keyFilePath (lib.PublicKey key))
    ∧ ∀ pw blob keyStoreBytes fs1 fs2,
        password = .ok pw → lib.Encrypt (lib.Marshal key) pw = .ok blob →
        lib.jsonMarshal ⟨blob, lib.Version, id, derivationPath, lib.PublicKey key⟩
          = .ok keyStoreBytes →
        fs.MkdirAll (Dir ((NewLodestarKeystoreManager keystorePath).secretFilePath
          (lib.PublicKey key))) = .ok fs1 →
        fs1.WriteFile ((NewLodestarKeystoreManager keystorePath).secretFilePath
          (lib.PublicKey key)) pw = .ok fs2 →
        (∃ err, ((NewLodestarKeystoreManager keystorePath).StoreValidatorKey lib password id
            fs key derivationPath).2
          = some ("error creating validator key folder: " ++ err))
        ∧ ((NewLodestarKeystoreManager keystorePath).StoreValidatorKey lib password id fs key
            derivationPath).1.fileAt
              ((NewLodestarKeystoreManager keystorePath).secretFilePath (lib.PublicKey key))
          = some pw := by
  have hne := secretLoc_ne_keyLoc keystorePath (lib.PublicKey key)
  obtain ⟨err0, hFail⟩ := (failed_iff _).1 hFail
  generalize hks : NewLodestarKeystoreManager keystorePath = ks at hne hFail ⊢
  have key1 : ∀ pw fs1 fs2, fs.MkdirAll (Dir (ks.secretFilePath (lib.PublicKey key))) = .ok fs1 →
      fs1.WriteFile (ks.secretFilePath (lib.PublicKey key)) pw = .ok fs2 →
      (∃ err2, fs2.MkdirAll (Dir (ks.keyFilePath (lib.PublicKey key))) = .error err2)
      ∧ fs2.fileAt (ks.keyFilePath (lib.PublicKey key))
          = fs.fileAt (ks.keyFilePath (lib.PublicKey key))
      ∧ fs2.fileAt (ks.secretFilePath (lib.PublicKey key)) = some pw := by
    intro pw fs1 fs2 h1 h2
    obtain ⟨f1, c1, _⟩ := MkdirAll_ok h1
    obtain ⟨f2, _, _, n2, o2, _⟩ := WriteFile_ok h2
    refine ⟨?_, ?_, content_of_entry n2⟩
    · apply MkdirAll_error_mono hFail (by rw [f2, f1])
      intro q hq
      by_cases hqs : q = resolve (ks.secretFilePath (lib.PublicKey key))
      · rw [hqs, content_of_entry n2]; rfl
      · rw [content_congr (o2 q hqs), c1 q]; exact hq
    · unfold FS.fileAt
      rw [content_congr (o2 _ (Ne.symm hne)), c1]
  unfold LodestarKeystoreManager.StoreValidatorKey
  simp only [LodestarKeystoreManager.secretFilePath, LodestarKeystoreManager.keyFilePath]
    at key1 ⊢
  cases password with
  | error e =>
    refine ⟨by simp, rfl, ?_⟩
    intro pw' blob' bytes' fs1' fs2' hp
    cases hp
  | ok pw =>
    simp only
    cases hE : lib.Encrypt (lib.Marshal key) pw with
    | error e =>
      refine ⟨by simp, rfl, ?_⟩
      intro pw' blob' bytes' fs1' fs2' hp hE'
      injection hp with hp
      subst hp
      rw [hE] at hE'
      cases hE'
    | ok blob =>
      simp only
      cases hJ : lib.jsonMarshal ⟨blob, lib.Version, id, derivationPath, lib.PublicKey key⟩ with
      | error e =>
        refine ⟨by simp, rfl, ?_⟩
        intro pw' blob' bytes' fs1' fs2' hp hE' hJ'
        injection hp with hp
        subst hp
        rw [hE] at hE'
        injection hE' with hE'
        subst hE'
        rw [hJ] at hJ'
        cases hJ'
      | ok bytes =>
        simp only
        cases hM : fs.MkdirAll
            (Dir (Join [ks.keystoreDir, ks.secretsDir, (lib.PublicKey key).HexWithPrefix])) with
        | error e =>
          refine ⟨by simp, rfl, ?_⟩
          intro pw' blob' bytes' fs1' fs2' _ _ _ h1
          cases h1
        | ok fs1 =>
          simp only
          cases hW : fs1.WriteFile
              (Join [ks.keystoreDir, ks.secretsDir, (lib.PublicKey key).HexWithPrefix]) pw with
          | error e =>
            simp only
            obtain ⟨_, c1, _⟩ := MkdirAll_ok hM
            refine ⟨by simp, c1 _, ?_⟩
            intro pw' blob' bytes' fs1' fs2' hp _ _ h1 h2
            injection hp with hp
            subst hp
            injection h1 with h1
            subst h1
            rw [hW] at h2
            cases h2
          | ok fs2 =>
            obtain ⟨⟨err2, hM2⟩, hk, hs⟩ := key1 pw fs1 fs2 hM hW
            simp only [hM2]
            refine ⟨by simp, hk, ?_⟩
            intro pw' blob' bytes' fs1' fs2' hp _ _ h1 h2
            exact ⟨⟨err2, rfl⟩, by
              injection hp with hp
              subst hp
              exact hs⟩

/-! ## Claims on the sync check and the address file -/

theorem wrapInt64_of_range (x : Int) (h1 : -(2 ^ 63) ≤ x) (h2 : x < 2 ^ 63) :
    wrapInt64 x = x := by
  unfold wrapInt64
  omega

theorem int64_of_lt (t : Nat) (ht : t < 2 ^ 63) : int64 t = (t : Int) := by
  unfold int64
  have h1 : t % 2 ^ 64 = t := Nat.mod_eq_of_lt (by omega)
  rw [h1, if_pos ht]

theorem Sub_lt_threshold (a b : Time) :
    a.Sub b < ethClientRecentBlockThreshold
      ↔ a.nanosSince b < ethClientRecentBlockThreshold := by
  unfold Time.Sub ethClientRecentBlockThreshold maxDuration minDuration
  split
  · constructor <;> intro h <;> omega
  · split
    · constructor <;> intro h <;> omega
    · exact Iff.rfl

/-- C9, as stated, fails, in two ways.  For the timestamp `2^64 - 1`, above the
int64 range, `int64(timestamp)` is `-1` and the block time returned is the Unix
time `-1` (one second before the epoch), not the Unix time `2^64 - 1`.  For a
timestamp 1000 seconds later than the clock the function returns true, though
that block time is not within 5 minutes of the clock. -/
theorem C9_counterexample :
    (IsSyncWithinThreshold (.ok ⟨2 ^ 64 - 1⟩) (atUnix 1700000000)
        = (false, atUnix (-1), none)
      ∧ atUnix (-1) ≠ atUnix (2 ^ 64 - 1))
    ∧ (IsSyncWithinThreshold (.ok ⟨1700001000⟩) (atUnix 1700000000)
        = (true, atUnix 1700001000, none)
      ∧ ethClientRecentBlockThreshold
          ≤ (atUnix 1700001000).nanosSince (atUnix 1700000000)) := by
  decide

/-- C9, amended. With the system clock reading `now`: for a header with
timestamp `t` the function returns `(b, blockTime, nil)` where `blockTime` is
`time.Unix(int64(t), 0)`, which is the Unix time `t` for every `t` up to
`2^63 - 1 - 62135596800`, and, when the block time is not later than `now`,
`b` is true exactly when `now - blockTime` is less than 5 minutes; when the
header request fails with `err` it returns `(false, zero time, err)`. -/
theorem C9_sync_within_threshold (t : Nat) (now : Time) (err : Error) :
    (IsSyncWithinThreshold (.ok ⟨t⟩) now).2 = (Unix (int64 t), none)
    ∧ (t ≤ 9223371974719179007 → Unix (int64 t) = atUnix (t : Int))
    ∧ (0 ≤ now.nanosSince (Unix (int64 t)) →
        (IsSyncWithinThreshold (.ok ⟨t⟩) now).1
          = decide (now.nanosSince (Unix (int64 t)) < ethClientRecentBlockThreshold))
    ∧ IsSyncWithinThreshold (.error err) now = (false, zeroTime, some err) := by
  have hres : IsSyncWithinThreshold (.ok ⟨t⟩) now
      = (decide (now.nanosSince (Unix (int64 t)) < ethClientRecentBlockThreshold),
          Unix (int64 t), none) := by
    have hs := Sub_lt_threshold now (Unix (int64 t))
    simp only [IsSyncWithinThreshold, GetEthClientLatestBlockTimestamp, Since]
    by_cases h : now.Sub (Unix (int64 t)) < ethClientRecentBlockThreshold
    · rw [if_pos h, decide_eq_true (hs.1 h)]
    · rw [if_neg h, decide_eq_false (fun h3 => h (hs.2 h3))]
  refine ⟨by rw [hres], ?_, ?_, ?_⟩
  · intro ht
    rw [int64_of_lt t (by omega)]
    unfold Unix atUnix
    rw [wrapInt64_of_range _ (by unfold unixToInternal; omega)
      (by unfold unixToInternal; omega)]
  · intro _
    rw [hres]
  · simp [IsSyncWithinThreshold, GetEthClientLatestBlockTimestamp]

theorem fromHexChar_hexDigit (n : Nat) (hn : n < 16) :
    fromHexChar (hexDigit n) = some n
      ∧ fromHexChar (Char.ofNat ((hexDigit n).toNat - 32)) = some n
        ∨ fromHexChar (hexDigit n) = some n ∧ (hexDigit n).toNat ≤ 57 := by
  interval_cases n <;> decide

theorem fromHexChar_cased (n : Nat) (hn : n < 16) (P : Prop) [Decidable P] :
    fromHexChar (if (hexDigit n).toNat > 57 ∧ P then Char.ofNat ((hexDigit n).toNat - 32)
      else hexDigit n) = some n := by
  rcases fromHexChar_hexDigit n hn with ⟨h1, h2⟩ | ⟨h1, h2⟩
  · split
    · exact h2
    · exact h1
  · rw [if_neg (by omega)]
    exact h1

theorem byte_of_nibbles (b : Fin 256) : Fin.ofNat (b.val / 16 * 16 + b.val % 16) = b := by
  apply Fin.ext
  simp only [Fin.ofNat, Fin.val_mk]
  have := b.isLt
  omega

theorem hexDecode_checksumCase (hash : Bytes) (bs : Bytes) :
    ∀ j, hexDecode (checksumCase hash j (hexEncode bs)) = bs := by
  induction bs with
  | nil => intro j; rfl
  | cons b bs ih =>
    intro j
    have hb := b.isLt
    simp only [hexEncode, checksumCase, hexDecode]
    rw [fromHexChar_cased _ (by omega), fromHexChar_cased _ (Nat.mod_lt _ (by norm_num))]
    simp only
    rw [byte_of_nibbles, ih]

theorem length_checksumCase (hash : Bytes) (cs : List Char) :
    ∀ j, (checksumCase hash j cs).length = cs.length := by
  induction cs with
  | nil => intro j; rfl
  | cons c cs ih => intro j; simp [checksumCase, ih]

theorem length_hexEncode (bs : Bytes) : (hexEncode bs).length = 2 * bs.length := by
  induction bs with
  | nil => rfl
  | cons b bs ih => simp [hexEncode, ih]; omega

theorem cropPad_of_length (b : Bytes) (h : b.length = 20) : cropPad b = b := by
  simp [cropPad, h]

/-- The address written by `Address.Hex` is read back by `HexToAddress`. -/
theorem HexToAddress_Hex (keccak256 : List Char → Bytes) (a : Address) :
    HexToAddress (a.Hex keccak256) = a := by
  have hlen : (checksumCase (keccak256 (hexEncode a.bytes)) 0 (hexEncode a.bytes)).length % 2
      ≠ 1 := by
    rw [length_checksumCase, length_hexEncode]
    omega
  have : (HexToAddress (a.Hex keccak256)).bytes = a.bytes := by
    simp only [HexToAddress, Address.Hex, BytesToAddress, FromHex]
    rw [if_neg hlen, hexDecode_checksumCase, cropPad_of_length _ a.size]
  cases a with
  | mk bytes size =>
    cases h : HexToAddress (Address.Hex keccak256 ⟨bytes, size⟩) with
    | mk bytes2 size2 =>
      rw [h] at this
      simp only at this
      subst this
      rfl

/-- C10. Address file round trip: after `SetAndSaveAddress(a)` returns nil the
address file holds `a.Hex()`, and `LoadAddress` of any manager of that file,
whatever its cache holds, returns `(a, true, nil)` and `GetAddress` then
returns `(a, true)`, because `HexToAddress` reads back what `a.Hex()` wrote;
and whenever `LoadAddress` finds no address file it returns
`(zero address, false, nil)` and `GetAddress` then returns
`(zero address, false)`, whatever the manager held before, whereas it returns
an error when the file cannot be reached because an element of its path
before the last is a regular file. -/
theorem C10_address_file_round_trip (keccak256 : List Char → Bytes) (m : addressManager)
    (a : Address) :
    (∀ (fs fs1 : FS) (m1 : addressManager),
      m.SetAndSaveAddress keccak256 fs a = (m1, fs1, none) →
      fs1.fileAt m.path = some (a.Hex keccak256)
      ∧ HexToAddress (a.Hex keccak256) = a
      ∧ ∀ m2 : addressManager, m2.path = m.path →
          (m2.LoadAddress fs1).2 = (a, true, none)
          ∧ (m2.LoadAddress fs1).1.GetAddress = (a, true))
    ∧ (∀ fs : FS, fs.Stat m.path = .notExist →
        (m.LoadAddress fs).2 = (Address.zero, false, none)
        ∧ (m.LoadAddress fs).1.GetAddress = (Address.zero, false))
    ∧ ∀ fs : FS, fs.fault (resolve m.path) = false → fs.reach m.path = Reach.notDir →
        (m.LoadAddress fs).2 = (Address.zero, false,
          some ("error checking if address file exists: "
            ++ ("stat " ++ m.path ++ ": not a directory")))
        ∧ (m.LoadAddress fs).1.GetAddress = (Address.zero, false) := by
  refine ⟨?_, ?_, ?_⟩
  · intro fs fs1 m1 h
    unfold addressManager.SetAndSaveAddress at h
    simp only at h
    split at h
    · cases h
    · rename_i fs1' hw
      injection h with hm h
      injection h with hfs _
      subst hm hfs
      obtain ⟨e, hf, hb, hn, _, _⟩ := WriteFile_ok hw
      have hf1 : fs1'.fault (resolve m.path) = false := by rw [e]; exact hf
      refine ⟨content_of_entry hn, HexToAddress_Hex _ _, ?_⟩
      intro m2 hm2
      have s1 := Stat_file hf1 hb hn
      have r1 := ReadFile_file hf1 hb hn
      simp only [addressManager.LoadAddress, addressManager.GetAddress, hm2, s1, r1,
        HexToAddress_Hex]
      simp
  · intro fs h
    simp only [addressManager.LoadAddress, addressManager.GetAddress, h]
    simp
  · intro fs hf hb
    have h := Stat_notDir hf hb
    simp only [addressManager.LoadAddress, addressManager.GetAddress, h]
    simp

/-! ## The claims at concrete inputs -/

theorem demoLib_crypt (b : Bytes) (p : String) (blob : Bytes × String)
    (h : demoLib.Encrypt b p = .ok blob) : demoLib.Decrypt blob p = .ok b := by
  simp only [demoLib, demoLibs] at h ⊢
  injection h with h
  subst h
  simp

theorem demoLib_json (ks : ValidatorKeystore (Bytes × String)) (s : String)
    (h : demoLib.jsonMarshal ks = .ok s) : demoLib.jsonUnmarshal s = .ok ks := by
  simp only [demoLib, demoLibs, List.find?] at h ⊢
  by_cases hk : demoRecord = ks
  · subst hk
    simp at h
    subst h
    rfl
  · simp [hk] at h

theorem demoLib_key (k : Fin 256) :
    demoLib.BLSPrivateKeyFromBytes (demoLib.Marshal k) = .ok k := rfl

/-- C1 at the key `7`, stored under `/data` in an empty file system. -/
theorem C1_witness :
    (demoManager.StoreValidatorKey demoLib (.ok "pw") [1, 2, 3] FS.empty 7
        "m/12381/3600/0/0/0").2 = none
    ∧ ∃ loaded, demoManager.LoadValidatorKey demoLib storedFS (demoLib.PublicKey 7)
          = (some loaded, none)
        ∧ demoLib.Marshal loaded = demoLib.Marshal 7 :=
  ⟨by decide,
   C1_store_load_round_trip demoLib demoLib_crypt demoLib_json demoLib_key "/data" (.ok "pw")
     [1, 2, 3] FS.empty storedFS 7 "m/12381/3600/0/0/0" (Prod.ext rfl (by decide))⟩

/-- C2 at the key `7` loaded from `storedFS`. -/
theorem C2_witness :
    demoManager.LoadValidatorKey demoLib storedFS ⟨List.replicate 48 7, by simp⟩
        = (some 7, none)
    ∧ demoLib.PublicKey 7 = ⟨List.replicate 48 7, by simp⟩ :=
  ⟨by decide,
   (C2_loaded_key_matches_request demoLib demoManager storedFS ⟨List.replicate 48 7, by simp⟩
     7 (by decide)).1⟩

/-- C3 at the record of the key `7` placed at the paths of the key `9`. -/
theorem C3_witness :
    demoLib.PublicKey 7 ≠ otherPubkey
    ∧ ∃ msg, demoManager.LoadValidatorKey demoLib misplacedFS otherPubkey = (none, some msg)
        ∧ otherPubkey.HexWithPrefix.data <:+: msg.data
        ∧ (demoLib.PublicKey 7).HexWithPrefix.data <:+: msg.data :=
  ⟨by decide,
   C3_pubkey_mismatch_detected demoLib demoManager misplacedFS (demoLib.PublicKey 7)
     otherPubkey "keystore-of-07" "pw" demoRecord [7] 7 (by decide) (by decide) (by decide)
     (by decide) (by decide) (by decide) (by decide) (by decide) (by decide)⟩

/-- C4, amended, at a file system that holds the secret file of the key `7`
and no keystore file, and at one in which `/data` is a regular file. -/
theorem C4_witness :
    (secretOnlyFS.entry (resolve (Join [(NewLodestarKeystoreManager "/data").GetKeystoreDir,
        "validators", (demoLib.PublicKey 7).HexWithPrefix, "voting-keystore.json"])) = none
      ∧ secretOnlyFS.fileAt (demoManager.secretFilePath (demoLib.PublicKey 7)) = some "pw"
      ∧ (NewLodestarKeystoreManager "/data").LoadValidatorKey demoLib secretOnlyFS
          (demoLib.PublicKey 7) = (none, none))
    ∧ (dataIsFileFS.entry (resolve (Join [(NewLodestarKeystoreManager "/data").GetKeystoreDir,
        "validators", (demoLib.PublicKey 7).HexWithPrefix, "voting-keystore.json"])) = none
      ∧ ∃ err, (NewLodestarKeystoreManager "/data").LoadValidatorKey demoLib dataIsFileFS
          (demoLib.PublicKey 7)
          = (none, some ("couldn't open the Lodestar keystore for pubkey "
              ++ (demoLib.PublicKey 7).HexWithPrefix ++ ": " ++ err))) :=
  ⟨⟨by decide, by decide,
    ((C4_absent_keystore_is_not_an_error demoLib "/data" secretOnlyFS (demoLib.PublicKey 7)
      (by decide)).1 (by decide) (by decide)).2⟩,
   ⟨by decide,
    ((C4_absent_keystore_is_not_an_error demoLib "/data" dataIsFileFS (demoLib.PublicKey 7)
      (by decide)).2 (Or.inr (by decide))).imp (fun _ h => h.2)⟩⟩

/-- C5, amended, at the keystore file of the key `7` without a secret file,
and with `/data/lodestar/secrets` a regular file. -/
theorem C5_witness :
    (noSecretFS.Stat ((NewLodestarKeystoreManager "/data").keyFilePath (demoLib.PublicKey 7))
        = .ok
      ∧ noSecretFS.entry (resolve (Join [(NewLodestarKeystoreManager "/data").GetKeystoreDir,
          "secrets", (demoLib.PublicKey 7).HexWithPrefix])) = none
      ∧ (NewLodestarKeystoreManager "/data").LoadValidatorKey demoLib noSecretFS
          (demoLib.PublicKey 7) = (none, none))
    ∧ ∃ err, (NewLodestarKeystoreManager "/data").LoadValidatorKey demoLib blockedSecretsFS
        (demoLib.PublicKey 7)
        = (none, some ("couldn't open the Lodestar secret for pubkey "
            ++ (demoLib.PublicKey 7).HexWithPrefix ++ ": " ++ err)) :=
  ⟨⟨by decide, by decide,
    ((C5_keystore_without_secret_is_absent demoLib "/data" noSecretFS (demoLib.PublicKey 7)
      "keystore-of-07" demoRecord (by decide) (by decide) (by decide) (by decide)).1
      (by decide) (by decide)).2⟩,
   ((C5_keystore_without_secret_is_absent demoLib "/data" blockedSecretsFS
      (demoLib.PublicKey 7) "keystore-of-07" demoRecord (by decide) (by decide) (by decide)
      (by decide)).2 (Or.inr (by decide))).imp (fun _ h => h.2)⟩

/-- C6 at the key `7`, stored under `/data` in an empty file system: the two
files are where the claim says, and the result of `LoadValidatorKey` changes
with the secret file alone and with the keystore file alone. -/
theorem C6_witness :
    (demoManager.StoreValidatorKey demoLib (.ok "pw") [1, 2, 3] FS.empty 7
        "m/12381/3600/0/0/0").2 = none
    ∧ storedFS.fileAt (Join ["/data", "lodestar", "secrets",
        (demoLib.PublicKey 7).HexWithPrefix]) = some "pw"
    ∧ storedFS.fileAt (Join ["/data", "lodestar", "validators",
        (demoLib.PublicKey 7).HexWithPrefix, "voting-keystore.json"]) = some "keystore-of-07"
    ∧ storedFS.content (resolve "/etc/passwd") = FS.empty.content (resolve "/etc/passwd")
    ∧ (NewLodestarKeystoreManager "/data").LoadValidatorKey demoLib storedFS
        (demoLib.PublicKey 7) = (some 7, none)
    ∧ (NewLodestarKeystoreManager "/data").LoadValidatorKey demoLib wrongSecretFS
        (demoLib.PublicKey 7)
      = (none, some ("couldn't decrypt keystore for pubkey "
          ++ (demoLib.PublicKey 7).HexWithPrefix ++ ": invalid passphrase"))
    ∧ (NewLodestarKeystoreManager "/data").LoadValidatorKey demoLib secretOnlyFS
        (demoLib.PublicKey 7) = (none, none) := by
  have h := C6_on_disk_layout demoLib "/data" (.ok "pw") [1, 2, 3] FS.empty storedFS 7
    "m/12381/3600/0/0/0" (Prod.ext rfl (by decide))
  obtain ⟨_, ⟨pw, blob, bytes, hp, hb, hj, h1, h2, h3, hload⟩, hdec, _⟩ := h
  injection hp with hp
  subst hp
  have hb2 : blob = ([7], "pw") := by
    have : demoLib.Encrypt (demoLib.Marshal 7) "pw" = .ok ([7], "pw") := rfl
    rw [this] at hb
    injection hb with hb
    exact hb.symm
  subst hb2
  have hj2 : bytes = "keystore-of-07" := by
    have : demoLib.jsonMarshal ⟨([7], "pw"), demoLib.Version, [1, 2, 3], "m/12381/3600/0/0/0",
        demoLib.PublicKey 7⟩ = .ok "keystore-of-07" := by decide
    rw [this] at hj
    injection hj with hj
    exact hj.symm
  subst hj2
  refine ⟨by decide, h1, h2, h3 _ (by decide) (by decide), hload.trans (by decide), ?_,
    by decide⟩
  exact (hdec wrongSecretFS (demoLib.PublicKey 7) "keystore-of-07" "another password"
    (by decide) (by decide) (by decide) (by decide)).trans (by decide)

/-- C7 at the keystore file of the key `7` with another password in the secret
file. -/
theorem C7_witness :
    wrongSecretFS.Stat (demoManager.keyFilePath (demoLib.PublicKey 7)) = .ok
    ∧ wrongSecretFS.Stat (demoManager.secretFilePath (demoLib.PublicKey 7)) = .ok
    ∧ demoLib.Decrypt demoRecord.Crypto "another password" = .error "invalid passphrase"
    ∧ ∃ e, demoManager.LoadValidatorKey demoLib wrongSecretFS (demoLib.PublicKey 7)
        = (none, some e) :=
  ⟨by decide, by decide, by decide,
   ((C7_wrong_secret_or_tamper_detected demoLib demoManager wrongSecretFS (demoLib.PublicKey 7)
      "keystore-of-07" (by decide) (by decide) (by decide)).2 demoRecord "another password"
      (by decide) (by decide)).1 "invalid passphrase" (by decide)⟩

/-- C8, amended, at the key `7` and the file system `blockedFS`. -/
theorem C8_witness :
    failed (blockedFS.MkdirAll
      (Dir ((NewLodestarKeystoreManager "/data").keyFilePath (demoLib.PublicKey 7)))) = true
    ∧ ((NewLodestarKeystoreManager "/data").StoreValidatorKey demoLib (.ok "pw") [1, 2, 3]
        blockedFS 7 "m/12381/3600/0/0/0").2 ≠ none
    ∧ ((NewLodestarKeystoreManager "/data").StoreValidatorKey demoLib (.ok "pw") [1, 2, 3]
        blockedFS 7 "m/12381/3600/0/0/0").1.fileAt
          ((NewLodestarKeystoreManager "/data").keyFilePath (demoLib.PublicKey 7))
        = blockedFS.fileAt
          ((NewLodestarKeystoreManager "/data").keyFilePath (demoLib.PublicKey 7)) :=
  ⟨by decide,
   (C8_store_order_of_effects demoLib "/data" (.ok "pw") [1, 2, 3] blockedFS 7
     "m/12381/3600/0/0/0" (by decide)).1,
   (C8_store_order_of_effects demoLib "/data" (.ok "pw") [1, 2, 3] blockedFS 7
     "m/12381/3600/0/0/0" (by decide)).2.1⟩

/-- C9, amended, at a block 100 seconds old and at one 400 seconds old. -/
theorem C9_witness :
    (0 ≤ (atUnix 1700000000).nanosSince (Unix (int64 1699999900))
      ∧ (IsSyncWithinThreshold (.ok ⟨1699999900⟩) (atUnix 1700000000)).1 = true
      ∧ (IsSyncWithinThreshold (.ok ⟨1699999900⟩) (atUnix 1700000000)).2
          = (atUnix 1699999900, none))
    ∧ (IsSyncWithinThreshold (.ok ⟨1699999600⟩) (atUnix 1700000000)).1 = false :=
  ⟨⟨by decide,
    ((C9_sync_within_threshold 1699999900 (atUnix 1700000000) "").2.2.1 (by decide)).trans
      (by decide),
    (C9_sync_within_threshold 1699999900 (atUnix 1700000000) "").1.trans
      (congrArg (fun x => (x, none))
        ((C9_sync_within_threshold 1699999900 (atUnix 1700000000) "").2.1 (by decide)))⟩,
   ((C9_sync_within_threshold 1699999600 (atUnix 1700000000) "").2.2.1 (by decide)).trans
    (by decide)⟩

/-- C10 at the address file `/data/address`: the address saved by a manager
whose cache held another address is loaded by a new manager of the same file;
with no address file, and with `/data` a regular file, the cache is reset. -/
theorem C10_witness :
    ((addressManager.mk "/data/address" otherAddress true).SetAndSaveAddress demoKeccak dataFS
        demoAddress).2.2 = none
    ∧ ((newAddressManager "/data/address").LoadAddress
        ((addressManager.mk "/data/address" otherAddress true).SetAndSaveAddress demoKeccak
          dataFS demoAddress).2.1).2 = (demoAddress, true, none)
    ∧ FS.empty.Stat (addressManager.mk "/data/address" otherAddress true).path = .notExist
    ∧ ((addressManager.mk "/data/address" otherAddress true).LoadAddress FS.empty).2
        = (Address.zero, false, none)
    ∧ ((addressManager.mk "/data/address" otherAddress true).LoadAddress
        FS.empty).1.GetAddress = (Address.zero, false)
    ∧ ((addressManager.mk "/data/address" otherAddress true).LoadAddress dataIsFileFS).2
        = (Address.zero, false, some ("error checking if address file exists: "
            ++ ("stat /data/address" ++ ": not a directory"))) :=
  ⟨by decide,
   (((C10_address_file_round_trip demoKeccak (addressManager.mk "/data/address" otherAddress
      true) demoAddress).1 dataFS _ _ (Prod.ext rfl (Prod.ext rfl (by decide)))).2.2
      (newAddressManager "/data/address") rfl).1,
   by decide,
   ((C10_address_file_round_trip demoKeccak (addressManager.mk "/data/address" otherAddress
      true) demoAddress).2.1 FS.empty (by decide)).1,
   ((C10_address_file_round_trip demoKeccak (addressManager.mk "/data/address" otherAddress
      true) demoAddress).2.1 FS.empty (by decide)).2,
   ((C10_address_file_round_trip demoKeccak (addressManager.mk "/data/address" otherAddress
      true) demoAddress).2.2 dataIsFileFS (by decide) (by decide)).1⟩

end NMC
